import Mathlib

/-!
# Todoist REST client: request construction and selective serialization

A shallow embedding of `todoist.go` and `task.go`.

* Go strings are `String`, Go `error` values are their message (`String`),
  and a Go result pair `(v, err)` is `Except String _`.
* Go `int` is `Int`; no arithmetic is done on it here.
* The network is explicit: `makeRequest` returns the list of `Event`s it
  caused (calls of `http.NewRequest`, requests handed to the HTTP client)
  next to its result, and the behaviour of the standard library's URL
  parser, HTTP client and JSON decoder is supplied by an `Env`.
* The definitions come first, the theorems after them.
-/

namespace Todoist


/-! ## Standard-library pieces the package relies on -/

/-- The decimal digits of `n`, most significant first (`fuel` bounds the
number of digits; `n` itself is always enough). -/
def natDigits : Nat → Nat → List Char
  | 0, n => [Char.ofNat (48 + n % 10)]
  | fuel + 1, n =>
    if n < 10 then [Char.ofNat (48 + n)]
    else natDigits fuel (n / 10) ++ [Char.ofNat (48 + n % 10)]

/-- Decimal text of a natural number. -/
def formatNat (n : Nat) : String := ⟨natDigits n n⟩

/-- The verb `%d` of `fmt.Sprintf` on an `int`. -/
def formatInt : Int → String
  | Int.ofNat n => formatNat n
  | Int.negSucc n => "-" ++ formatNat (n + 1)

/-- The value `json.Marshal` gives for a `[]int`: the decimal elements,
comma separated, in square brackets. It never fails. -/
def jsonMarshalInts (xs : List Int) : Except String String :=
  .ok ("[" ++ ",".intercalate (xs.map formatInt) ++ "]")

deriving instance DecidableEq for Except

/-- Go's `string`. -/
abbrev string := String

/-- A `time.Time`, kept as the two observations this package makes of one:
whether `IsZero` holds, and what `json.Marshal` returns for it (the quoted
RFC 3339 text, or the error the encoder reports, for instance for a year
outside `[0,9999]`). -/
structure Time where
  zero : Bool
  json : Except String String
deriving DecidableEq

/-- The method `time.Time.IsZero`. -/
def Time.IsZero (t : Time) : Bool := t.zero

/-- The call `json.Marshal(t)` for a `time.Time`. -/
def jsonMarshalTime (t : Time) : Except String String := t.json

/-- The zero value `time.Time{}`. -/
def Time.zeroValue : Time := ⟨true, .ok "\"0001-01-01T00:00:00Z\""⟩

/-! ## task.go: the data model -/

/-- Due is a model of todoist project entity. -/
structure Due where
  String : string
  Date : string
  Datetime : Time
  Timezone : string
deriving DecidableEq

/-- Task is a model of todoist project entity. -/
structure Task where
  ID : String
  CommentCount : Int
  Completed : Bool
  Content : String
  Indent : Int
  LabelIDs : List Int
  Order : Int
  Priority : Int
  ProjectID : String
  Due : Due
deriving DecidableEq

/-- The struct `taskSave` of todoist.go. -/
structure taskSave where
  Content : String
  ProjectID : String
  Order : Int
  LabelIDs : List Int
  Priority : Int
  DueString : String
  DueDateTime : Time
  DueLang : String
deriving DecidableEq

/-- The method `Task.taskSave`. -/
def Task.taskSave (t : Task) : taskSave :=
  { Content := t.Content
    ProjectID := t.ProjectID
    Order := t.Order
    LabelIDs := t.LabelIDs
    Priority := t.Priority
    DueString := t.Due.String
    DueDateTime := t.Due.Datetime
    DueLang := "en" }

/-! ## todoist.go: `taskSave.MarshalJSON` -/

/-- The method `taskSave.MarshalJSON`: the buffer is threaded through the
conditionals in source order. -/
def taskSave.MarshalJSON (ts : taskSave) : Except String String :=
  let buffer := "\x7b"
  if ts.Content = "" then .error "Content is empty" else
  let buffer := buffer ++ ("\"content\":\"" ++ ts.Content ++ "\"")
  let buffer :=
    if ts.ProjectID ≠ "" then buffer ++ (",\"project_id\":" ++ ts.ProjectID) else buffer
  let buffer :=
    if ts.Order ≠ 0 then buffer ++ (",\"order\":" ++ formatInt ts.Order) else buffer
  let afterDateTime : Except String String :=
    if !ts.DueDateTime.IsZero then
      let buffer := buffer ++ ",\"due_datetime\":"
      match jsonMarshalTime ts.DueDateTime with
      | .error err => .error err
      | .ok json => .ok (buffer ++ json)
    else .ok buffer
  match afterDateTime with
  | .error err => .error err
  | .ok buffer =>
  let afterLabels : Except String String :=
    if ts.LabelIDs.length ≠ 0 then
      let buffer := buffer ++ ",\"label_ids\":"
      match jsonMarshalInts ts.LabelIDs with
      | .error err => .error err
      | .ok json => .ok (buffer ++ json)
    else .ok buffer
  match afterLabels with
  | .error err => .error err
  | .ok buffer =>
  let buffer :=
    if ts.Priority ≠ 0 then buffer ++ (",\"priority\":" ++ formatInt ts.Priority) else buffer
  let buffer :=
    if ts.DueString ≠ "" then buffer ++ (",\"due_string\":\"" ++ ts.DueString ++ "\"") else buffer
  let buffer :=
    if ts.DueLang ≠ "" then buffer ++ (",\"due_lang\":\"" ++ ts.DueLang ++ "\"") else buffer
  .ok (buffer ++ "\x7d")

/-! ## task.go: `QueryParam` -/

/-- A `QueryParam` (a Go `map[string]string`), given as its entries in the
order one `range` over the map visits them. -/
abbrev QueryParam := List (String × String)

/-- One iteration of the loop of `QueryParam.String`. -/
def QueryParam.step (ret : String) (kv : String × String) : String :=
  let ret := if ret ≠ "?" then ret ++ "&" else ret
  ret ++ kv.1 ++ "=" ++ kv.2

/-- The method `QueryParam.String`. -/
def QueryParam.String (qp : QueryParam) : String :=
  if qp.length = 0 then ""
  else qp.foldl QueryParam.step "?"

/-! ## The standard library's `fmt.Errorf`, called with a format and no operands

`makeRequest` passes the response body as the *format* of `fmt.Errorf`.
What follows is `(*pp).doPrintf` of package `fmt` specialised to an empty
operand list: text is copied up to a `%`; after a `%` come flags, an
optional `[n]` operand index, a width, a precision and the verb; as there
is no operand, every verb other than `%` prints a `%!verb(MISSING)` or
`%!verb(BADINDEX)` notice, and every `*` a `%!(BADWIDTH)` or `%!(BADPREC)`
notice. -/

/-- The loop of fmt's `parsenum`: `(isnum, text left)`. A number above
`1e6` gives up and skips to the end of the range. -/
def parsenumLoop (num : Nat) (isnum : Bool) : List Char → Bool × List Char
  | [] => (isnum, [])
  | c :: cs =>
    if '0' ≤ c ∧ c ≤ '9' then
      if num > 1000000 then (false, [])
      else parsenumLoop (num * 10 + (c.toNat - 48)) true cs
    else (isnum, c :: cs)

/-- fmt's `parsenum` over a range of the format. -/
def parsenum (s : List Char) : Bool × List Char := parsenumLoop 0 false s

/-- fmt's `parseArgNumber`, on the text `t` that follows a `[`: the text
left after the index, and whether a well-formed `[n]` was read. -/
def parseArgNumber (t : List Char) : List Char × Bool :=
  if t.length < 2 then (t, false)
  else if ']' ∈ t then
    let inner := t.takeWhile (fun c => c != ']')
    (t.drop (inner.length + 1), parsenum inner == (true, []))
  else (t, false)

/-- fmt's `argNumber` with no operands: `(text left, goodArgNum, found)`.
An index can never be in range, so reading a `[` clears `goodArgNum`. -/
def argNumber (good : Bool) : List Char → List Char × Bool × Bool
  | '[' :: t => let r := parseArgNumber t; (r.1, false, r.2)
  | s => (s, good, false)

/-- One directive, on the text after its `%`: the text printed for it and
the format text left (`none` once the format ended without a verb, which
ends the whole loop). -/
def directive (s : List Char) : List Char × Option (List Char) :=
  let s := s.dropWhile (fun c => c == '#' || c == '0' || c == '+' || c == '-' || c == ' ')
  let (s, good, afterIndex) := argNumber true s
  let (out, s, good, afterIndex) :=
    match s with
    | '*' :: r => ("%!(BADWIDTH)".data, r, good, false)
    | _ =>
      let (isnum, r) := parsenum s
      ([], r, (if afterIndex && isnum then false else good), afterIndex)
  let (out, s, good, afterIndex) :=
    match s with
    | '.' :: r =>
      let good := if afterIndex then false else good
      let (r, good, afterIndex) := argNumber good r
      match r with
      | '*' :: r => (out ++ "%!(BADPREC)".data, r, good, false)
      | _ => (out, (parsenum r).2, good, afterIndex)
    | _ => (out, s, good, afterIndex)
  let (s, good) :=
    if !afterIndex then let r := argNumber good s; (r.1, r.2.1) else (s, good)
  match s with
  | [] => (out ++ "%!(NOVERB)".data, none)
  | verb :: r =>
    if verb = '%' then (out ++ ['%'], some r)
    else if !good then (out ++ "%!".data ++ [verb] ++ "(BADINDEX)".data, some r)
    else (out ++ "%!".data ++ [verb] ++ "(MISSING)".data, some r)

/-- The loop of `doPrintf` (`fuel` bounds the iterations; every iteration
consumes a character, so the length of the format is enough). -/
def doPrintf : Nat → List Char → List Char
  | 0, _ => []
  | _ + 1, [] => []
  | fuel + 1, c :: cs =>
    if c ≠ '%' then c :: doPrintf fuel cs
    else
      match directive cs with
      | (out, none) => out
      | (out, some r) => out ++ doPrintf fuel r

/-- The message of the error `fmt.Errorf(format)`. -/
def Errorf (format : String) : String := ⟨doPrintf format.length format.data⟩

/-! ## todoist.go: the transport -/

/-- An `http.Request`, as far as this package fills one. -/
structure Request where
  Method : String
  URL : String
  Body : String
  Header : List (String × String)
deriving DecidableEq

/-- An `http.Response`, as far as this package reads one: the status code,
and what reading the body to its end gives (the text, or a read error). -/
structure Response where
  StatusCode : Int
  Body : Except String String
deriving DecidableEq

/-- What happens outside the package in one run: the process-wide `Token`,
and the behaviour of the standard library and the network.
* `compact`: the check and compaction `json.Marshal` applies to the bytes
  a `MarshalJSON` method returned (an error for bytes that are not JSON);
* `parseURL`: the error `http.NewRequest` reports for a URL, if any;
* `Do`: the method `Do` of the HTTP client;
* `decodeTask`, `decodeTasks`: `json.NewDecoder(body).Decode` into a
  `Task` and into a `[]Task`. -/
structure Env where
  Token : String
  compact : String → Except String String
  parseURL : String → Option String
  Do : Request → Except String Response
  decodeTask : Except String String → Except String Task
  decodeTasks : Except String String → Except String (List Task)

/-- A call that leaves the package: `http.NewRequest`, or `client.Do`. -/
inductive Event where
  | NewRequest (method url body : String)
  | Do (req : Request)
deriving DecidableEq

/-- The package variable `todoistURL`. -/
def todoistURL : String := "https://api.todoist.com/rest/v2/"

/-- The call `json.Marshal(data)` for a `taskSave`: the encoder calls
`MarshalJSON`, checks and compacts the bytes it returned, and wraps either
failure in a `MarshalerError`. -/
def jsonMarshal (env : Env) (ts : taskSave) : Except String String :=
  match ts.MarshalJSON with
  | .error err => .error ("json: error calling MarshalJSON for type todoist.taskSave: " ++ err)
  | .ok b =>
    match env.compact b with
    | .error err => .error ("json: error calling MarshalJSON for type todoist.taskSave: " ++ err)
    | .ok out => .ok out

/-- The function `makeRequest`; `data` is `nil` or a `taskSave` (the only
payload type passed in this package). The result comes with the calls made
to the outside, in order. -/
def makeRequest (env : Env) (method endpoint : String) (data : Option taskSave) :
    List Event × Except String Response :=
  let url := todoistURL ++ endpoint
  let body := ""
  let marshalled : Except String String :=
    match data with
    | some d =>
      match jsonMarshal env d with
      | .error err => .error err
      | .ok json => .ok json
    | none => .ok body
  match marshalled with
  | .error err => ([], .error err)
  | .ok body =>
  match env.parseURL url with
  | some err => ([Event.NewRequest method url body], .error err)
  | none =>
  let req : Request := { Method := method, URL := url, Body := body, Header := [] }
  let bearer := "Bearer " ++ env.Token
  let req := { req with Header := req.Header ++ [("Authorization", bearer)] }
  let req :=
    if data.isSome then { req with Header := req.Header ++ [("Content-Type", "application/json")] }
    else req
  match env.Do req with
  | .error err => ([Event.NewRequest method url body, Event.Do req], .error err)
  | .ok res =>
    if res.StatusCode ≥ 400 then
      match res.Body with
      | .error err => ([Event.NewRequest method url body, Event.Do req], .error err)
      | .ok str => ([Event.NewRequest method url body, Event.Do req], .error (Errorf str))
    else ([Event.NewRequest method url body, Event.Do req], .ok res)

/-! ## task.go: the operations -/

/-- The function `decodeTask`. -/
def decodeTask (env : Env) (body : Except String String) : Except String Task :=
  match env.decodeTask body with
  | .error err => .error err
  | .ok task => .ok task

/-- ListTask return all task, you can filter using QueryParam. -/
def ListTask (env : Env) (qp : QueryParam) : List Event × Except String (List Task) :=
  let path := "tasks" ++ QueryParam.String qp
  match makeRequest env "GET" path none with
  | (evs, .error err) => (evs, .error err)
  | (evs, .ok res) =>
    match env.decodeTasks res.Body with
    | .error err => (evs, .error err)
    | .ok tasks => (evs, .ok tasks)

/-- GetTask return a task by id. -/
def GetTask (env : Env) (id : String) : List Event × Except String Task :=
  let path := "tasks/" ++ id
  match makeRequest env "GET" path none with
  | (evs, .error err) => (evs, .error err)
  | (evs, .ok res) => (evs, decodeTask env res.Body)

/-- CreateTask create a new task. -/
def CreateTask (env : Env) (task : Task) : List Event × Except String Task :=
  match makeRequest env "POST" "tasks" (some task.taskSave) with
  | (evs, .error err) => (evs, .error err)
  | (evs, .ok res) => (evs, decodeTask env res.Body)

/-- Delete remove a task. The result is the returned `error`: `none` is
`nil`. -/
def Task.Delete (env : Env) (t : Task) : List Event × Option String :=
  let path := "tasks/" ++ t.ID
  match makeRequest env "DELETE" path none with
  | (evs, .error err) => (evs, some err)
  | (evs, .ok _) => (evs, none)

/-- Update a task. -/
def Task.Update (env : Env) (t : Task) : List Event × Option String :=
  let path := "tasks/" ++ t.ID
  match makeRequest env "POST" path (some t.taskSave) with
  | (evs, .error err) => (evs, some err)
  | (evs, .ok _) => (evs, none)

/-- Close mask task as done. -/
def Task.Close (env : Env) (t : Task) : List Event × Option String :=
  let path := "tasks/" ++ t.ID ++ "/close"
  match makeRequest env "POST" path none with
  | (evs, .error err) => (evs, some err)
  | (evs, .ok _) => (evs, none)

/-- Reopen a task. -/
def Task.Reopen (env : Env) (t : Task) : List Event × Option String :=
  let path := "tasks/" ++ t.ID ++ "/reopen"
  match makeRequest env "POST" path none with
  | (evs, .error err) => (evs, some err)
  | (evs, .ok _) => (evs, none)

/-! ## Reading a payload back: JSON text (RFC 8259)

To say what a payload *contains* the bytes are read back as JSON. The
reader is a pushdown recogniser for the grammar of RFC 8259 that also
collects the members of the outermost object: each key, decoded, with the
decoded text of its value when that value is a string. (A `\u` escape is
decoded to the character of that code; escapes that name a surrogate half
are not paired up, which cannot matter for a key or value compared with
text that has no such character.) -/

/-- What encloses the value being read. -/
inductive Ctx where
  | object
  | array
deriving DecidableEq

/-- Where in the grammar the reader stands. -/
inductive Mode where
  | value
  | valueOrEnd
  | keyOrEnd
  | key
  | colon
  | after
  | str (isKey : Bool)
  | esc (isKey : Bool)
  | hex (isKey : Bool) (left : Nat) (code : Nat)
  | minus
  | zero
  | int
  | dot
  | frac
  | e
  | esign
  | exp
  | lit (rest : List Char)
deriving DecidableEq

/-- The state of the reader: grammar position, enclosing contexts
(innermost first), the decoded text of the string being read, the key whose
value is awaited in the outermost object, whether the text is an object,
and the members of that object read so far. -/
structure Reader where
  mode : Mode
  stack : List Ctx
  cur : List Char
  key : String
  isObject : Bool
  members : List (String × Option String)
deriving DecidableEq

/-- JSON white space. -/
def ws (c : Char) : Bool := c = ' ' || c = '\t' || c = '\n' || c = '\r'

/-- A decimal digit. -/
def digit (c : Char) : Bool := 48 ≤ c.toNat && c.toNat ≤ 57

/-- The value of a hexadecimal digit. -/
def hexVal (c : Char) : Option Nat :=
  if 48 ≤ c.toNat ∧ c.toNat ≤ 57 then some (c.toNat - 48)
  else if 97 ≤ c.toNat ∧ c.toNat ≤ 102 then some (c.toNat - 87)
  else if 65 ≤ c.toNat ∧ c.toNat ≤ 70 then some (c.toNat - 55)
  else none

/-- A value that is not a string starts: in the outermost object it is the
value of the awaited key. -/
def Reader.noteValue (r : Reader) : Reader :=
  if r.stack = [Ctx.object] then
    { r with members := r.members ++ [(r.key, none)], key := "" }
  else r

/-- The first character of a value. -/
def Reader.beginValue (r : Reader) (c : Char) : Option Reader :=
  if ws c then some r
  else if c = '\"' then some { r with mode := .str false, cur := [] }
  else if c = '\x7b' then
    some { r.noteValue with mode := .keyOrEnd, stack := Ctx.object :: r.stack,
                            isObject := r.isObject || r.stack.isEmpty }
  else if c = '[' then some { r.noteValue with mode := .valueOrEnd, stack := Ctx.array :: r.stack }
  else if c = '-' then some { r.noteValue with mode := .minus }
  else if c = '0' then some { r.noteValue with mode := .zero }
  else if digit c then some { r.noteValue with mode := .int }
  else if c = 't' then some { r.noteValue with mode := .lit ['r', 'u', 'e'] }
  else if c = 'f' then some { r.noteValue with mode := .lit ['a', 'l', 's', 'e'] }
  else if c = 'n' then some { r.noteValue with mode := .lit ['u', 'l', 'l'] }
  else none

/-- A character after a complete value: white space, a comma, or the
bracket that closes the enclosing context. -/
def Reader.endValue (r : Reader) (c : Char) : Option Reader :=
  if ws c then some { r with mode := .after }
  else
    match r.stack with
    | [] => none
    | Ctx.object :: rest =>
      if c = ',' then some { r with mode := .key }
      else if c = '\x7d' then some { r with mode := .after, stack := rest }
      else none
    | Ctx.array :: rest =>
      if c = ',' then some { r with mode := .value }
      else if c = ']' then some { r with mode := .after, stack := rest }
      else none

/-- The quote that closes a string: a key of the outermost object is kept
as the awaited key, a string value there completes a member. -/
def Reader.closeString (r : Reader) (isKey : Bool) : Reader :=
  if isKey then
    { r with mode := .colon, cur := [],
             key := if r.stack = [Ctx.object] then String.mk r.cur else r.key }
  else if r.stack = [Ctx.object] then
    { r with mode := .after, cur := [], key := "",
             members := r.members ++ [(r.key, some (String.mk r.cur))] }
  else { r with mode := .after, cur := [] }

/-- One character of JSON text; `none` when the grammar forbids it. -/
def Reader.step (r : Reader) (c : Char) : Option Reader :=
  match r.mode with
  | .value => r.beginValue c
  | .valueOrEnd =>
    if c = ']' then some { r with mode := .after, stack := r.stack.tail }
    else r.beginValue c
  | .keyOrEnd =>
    if ws c then some r
    else if c = '\"' then some { r with mode := .str true, cur := [] }
    else if c = '\x7d' then some { r with mode := .after, stack := r.stack.tail }
    else none
  | .key =>
    if ws c then some r
    else if c = '\"' then some { r with mode := .str true, cur := [] }
    else none
  | .colon =>
    if ws c then some r
    else if c = ':' then some { r with mode := .value }
    else none
  | .after => r.endValue c
  | .str k =>
    if c = '\"' then some (r.closeString k)
    else if c = '\\' then some { r with mode := .esc k }
    else if c.toNat < 32 then none
    else some { r with cur := r.cur ++ [c] }
  | .esc k =>
    if c = '\"' ∨ c = '\\' ∨ c = '/' then some { r with mode := .str k, cur := r.cur ++ [c] }
    else if c = 'b' then some { r with mode := .str k, cur := r.cur ++ [Char.ofNat 8] }
    else if c = 'f' then some { r with mode := .str k, cur := r.cur ++ [Char.ofNat 12] }
    else if c = 'n' then some { r with mode := .str k, cur := r.cur ++ ['\n'] }
    else if c = 'r' then some { r with mode := .str k, cur := r.cur ++ ['\r'] }
    else if c = 't' then some { r with mode := .str k, cur := r.cur ++ ['\t'] }
    else if c = 'u' then some { r with mode := .hex k 4 0 }
    else none
  | .hex k left code =>
    match hexVal c with
    | none => none
    | some v =>
      if left ≤ 1 then some { r with mode := .str k, cur := r.cur ++ [Char.ofNat (code * 16 + v)] }
      else some { r with mode := .hex k (left - 1) (code * 16 + v) }
  | .minus =>
    if c = '0' then some { r with mode := .zero }
    else if digit c then some { r with mode := .int }
    else none
  | .zero =>
    if c = '.' then some { r with mode := .dot }
    else if c = 'e' ∨ c = 'E' then some { r with mode := .e }
    else r.endValue c
  | .int =>
    if digit c then some r
    else if c = '.' then some { r with mode := .dot }
    else if c = 'e' ∨ c = 'E' then some { r with mode := .e }
    else r.endValue c
  | .dot => if digit c then some { r with mode := .frac } else none
  | .frac =>
    if digit c then some r
    else if c = 'e' ∨ c = 'E' then some { r with mode := .e }
    else r.endValue c
  | .e =>
    if c = '+' ∨ c = '-' then some { r with mode := .esign }
    else if digit c then some { r with mode := .exp }
    else none
  | .esign => if digit c then some { r with mode := .exp } else none
  | .exp => if digit c then some r else r.endValue c
  | .lit rest =>
    match rest with
    | [] => none
    | x :: xs =>
      if c = x then (if xs = [] then some { r with mode := .after } else some { r with mode := .lit xs })
      else none

/-- The reader run over a text. -/
def Reader.run (r : Reader) : List Char → Option Reader
  | [] => some r
  | c :: cs =>
    match r.step c with
    | none => none
    | some r' => r'.run cs

/-- The reader before the first character. -/
def Reader.init : Reader := ⟨.value, [], [], "", false, []⟩

/-- The text may end here: one complete value has been read. -/
def Reader.finished (r : Reader) : Bool :=
  r.stack.isEmpty &&
    (r.mode = .after || r.mode = .zero || r.mode = .int || r.mode = .frac || r.mode = .exp)

/-- The text is JSON: exactly one value, white space around it allowed. -/
def validJSON (s : String) : Bool :=
  match Reader.init.run s.data with
  | some r => r.finished
  | none => false

/-- The members of the JSON object written in `s`, in order: each decoded
key with the decoded text of its value if that value is a string (`none`
for a value of another kind). `none` if `s` is not JSON or not an object. -/
def jsonObject (s : String) : Option (List (String × Option String)) :=
  match Reader.init.run s.data with
  | some r => if r.finished && r.isObject then some r.members else none
  | none => none

/-! ## Notions used in the statements -/

/-- The request `makeRequest` hands to the HTTP client once the payload
marshalled to `body` and the URL parsed. -/
def builtRequest (env : Env) (method endpoint body : String) (hasData : Bool) : Request :=
  { Method := method
    URL := todoistURL ++ endpoint
    Body := body
    Header := [("Authorization", "Bearer " ++ env.Token)] ++
      (if hasData then [("Content-Type", "application/json")] else []) }

/-- The payload text `makeRequest` puts in the request body. -/
def marshalled (env : Env) (data : Option taskSave) : Except String String :=
  match data with
  | some d => jsonMarshal env d
  | none => .ok ""

/-- Text that stands for itself inside a JSON string: no quote, no
backslash, no control character. -/
def plainText (s : List Char) : Bool :=
  s.all fun c => c != '\"' && c != '\\' && decide (32 ≤ c.toNat)

/-- A decimal numeral: digits, without a leading zero unless it is `0`. -/
def isNumeral : List Char → Bool
  | [] => false
  | [c] => digit c
  | c :: cs => digit c && c != '0' && cs.all digit

/-- A decimal numeral with an optional minus sign. -/
def isIntText : List Char → Bool
  | '-' :: cs => isNumeral cs
  | cs => isNumeral cs

/-- The texts of a task can stand between JSON quotes (or, for the
project identifier, as a JSON number) as they are: Content and Due.String
have no quote, backslash or control character, ProjectID is empty or a
decimal numeral, and the timestamp is zero or encoded as a quoted string of
such characters. -/
def Task.plain (t : Task) : Prop :=
  plainText t.Content.data = true ∧ plainText t.Due.String.data = true ∧
  (t.ProjectID = "" ∨ isNumeral t.ProjectID.data = true) ∧
  (t.Due.Datetime.IsZero = true ∨
    ∃ s : String, plainText s.data = true ∧
      jsonMarshalTime t.Due.Datetime = .ok ("\"" ++ s ++ "\""))

/-- The text `v` is read, as the value of a member of the outermost
object, as `val`. -/
def Reads (v : List Char) (val : Option String) : Prop :=
  ∀ (key : String) (o : Bool) (ms : List (String × Option String)),
    ∃ m, (m = Mode.after ∨ m = Mode.zero ∨ m = Mode.int) ∧
      Reader.run ⟨.value, [Ctx.object], [], key, o, ms⟩ v =
        some ⟨m, [Ctx.object], [], "", o, ms ++ [(key, val)]⟩

/-- The text of a member after the first: a comma, the quoted key, a
colon and the value text. -/
def memberText (k v : List Char) : List Char := ',' :: '\"' :: k ++ '\"' :: ':' :: v

/-- The members `MarshalJSON` writes after `content`, in order: key, value
text, and what the value reads back as (`j` is the encoded timestamp, `tv`
what it reads back as). -/
def written (ts : taskSave) (j : String) (tv : Option String) :
    List (List Char × List Char × Option String) :=
  (if ts.ProjectID ≠ "" then [("project_id".data, ts.ProjectID.data, none)] else []) ++
  ((if ts.Order ≠ 0 then [("order".data, (formatInt ts.Order).data, none)] else []) ++
  ((if ts.DueDateTime.IsZero = false then [("due_datetime".data, j.data, tv)] else []) ++
  ((if ts.LabelIDs.length ≠ 0 then
      [("label_ids".data, ("[" ++ ",".intercalate (ts.LabelIDs.map formatInt) ++ "]").data, none)]
    else []) ++
  ((if ts.Priority ≠ 0 then [("priority".data, (formatInt ts.Priority).data, none)] else []) ++
  ((if ts.DueString ≠ "" then
      [("due_string".data, '\"' :: ts.DueString.data ++ ['\"'], some ts.DueString)]
    else []) ++
  (if ts.DueLang ≠ "" then
      [("due_lang".data, '\"' :: ts.DueLang.data ++ ['\"'], some ts.DueLang)]
    else []))))))

/-! ## Environments and tasks the statements are instantiated at -/

/-- A task with every field at its zero value. -/
def emptyTask : Task :=
  ⟨"", 0, false, "", 0, [], 0, 0, "", ⟨"", "", Time.zeroValue, ""⟩⟩

/-- An environment whose network answers every request with status 200 and
the body `ok`, used to instantiate statements. -/
def okEnv : Env :=
  { Token := "secret"
    compact := fun b => .ok b
    parseURL := fun _ => none
    Do := fun _ => .ok ⟨200, .ok "ok"⟩
    decodeTask := fun _ => .error "EOF"
    decodeTasks := fun _ => .error "EOF" }

/-- An environment whose server answers every request with status 404 and
the body `Task not found`. -/
def notFoundEnv : Env :=
  { Token := "secret"
    compact := fun b => .ok b
    parseURL := fun _ => none
    Do := fun _ => .ok ⟨404, .ok "Task not found"⟩
    decodeTask := fun _ => .ok emptyTask
    decodeTasks := fun _ => .ok [] }

/-- An environment whose server answers every request with status 429 and
the body `quota 100% used`. -/
def quotaEnv : Env :=
  { Token := "secret"
    compact := fun b => .ok b
    parseURL := fun _ => none
    Do := fun _ => .ok ⟨429, .ok "quota 100% used"⟩
    decodeTask := fun _ => .ok emptyTask
    decodeTasks := fun _ => .ok [] }

/-- A task freshly built by a caller. -/
def taskA : Task :=
  ⟨"", 0, false, "buy milk", 0, [], 0, 0, "", ⟨"", "2026-01-02", Time.zeroValue, "Europe/Paris"⟩⟩

/-- The same payload fields on a task as a server would return it. -/
def taskB : Task :=
  ⟨"42", 3, true, "buy milk", 2, [], 0, 0, "", ⟨"", "", Time.zeroValue, ""⟩⟩

/-- The task with ID `42`. -/
def task42 : Task :=
  ⟨"42", 0, false, "buy milk", 0, [], 0, 0, "", ⟨"", "", Time.zeroValue, ""⟩⟩

/-- A timestamp in the year 10000 (`time.Date(10000, 1, 1, 0, 0, 0, 0,
time.UTC)`): it is not the zero time, and `json.Marshal` refuses it. -/
def year10000 : Time :=
  ⟨false, .error ("json: error calling MarshalJSON for type time.Time: " ++
    "Time.MarshalJSON: year outside of range [0,9999]")⟩

/-- A task due in the year 10000. -/
def taskFar : Task :=
  ⟨"", 0, false, "pay rent", 0, [], 0, 0, "", ⟨"", "", year10000, ""⟩⟩

/-- A task that sets every payload field. -/
def taskFull : Task :=
  ⟨"42", 1, false, "buy milk", 1, [7, 12], 3, 4, "2203306141",
    ⟨"tomorrow at 12", "2026-11-05", ⟨false, .ok "\"2026-11-05T12:00:00Z\""⟩, "UTC"⟩⟩

/-- A task that sets only its content and a due string. -/
def taskDue : Task :=
  ⟨"", 0, false, "buy milk", 0, [], 0, 0, "", ⟨"tomorrow", "", Time.zeroValue, ""⟩⟩

/-- A task whose content holds a double quote. -/
def taskQuote : Task :=
  ⟨"", 0, false, "say \"hi\"", 0, [], 0, 0, "", ⟨"", "", Time.zeroValue, ""⟩⟩

/-- A task whose content holds a backslash. -/
def taskBackslash : Task :=
  ⟨"", 0, false, "see C:\\new", 0, [], 0, 0, "", ⟨"", "", Time.zeroValue, ""⟩⟩

/-- A task whose content closes the string and goes on with members. -/
def taskInject : Task :=
  ⟨"", 0, false, "x\",\"priority\":4,\"y\":\"", 0, [], 0, 0, "", ⟨"", "", Time.zeroValue, ""⟩⟩

/-- A task in the project `2203306141`. -/
def taskProject : Task :=
  ⟨"", 0, false, "buy milk", 0, [], 0, 0, "2203306141", ⟨"", "", Time.zeroValue, ""⟩⟩

/-! # Theorems

## The definitions on concrete inputs -/

/-- The verb `%d` and the encoding of a `[]int` on sample values. -/
theorem formatInt_samples :
    formatInt 0 = "0" ∧ formatInt 2203306141 = "2203306141" ∧ formatInt (-120) = "-120" ∧
    jsonMarshalInts [7, -12, 0] = .ok "[7,-12,0]" := by
  decide

/-- What `fmt.Errorf` makes of sample formats when it is given no operand. -/
theorem Errorf_samples :
    Errorf "Task not found" = "Task not found" ∧
    Errorf "disk 100%full" = "disk 100%!f(MISSING)ull" ∧
    Errorf "100%" = "100%!(NOVERB)" ∧
    Errorf "a%%b" = "a%b" ∧
    Errorf "a%[1]db" = "a%!d(BADINDEX)b" ∧
    Errorf "a%[x]db%" = "a%!d(BADINDEX)b%!(NOVERB)" ∧
    Errorf "a%*db" = "a%!(BADWIDTH)%!d(MISSING)b" ∧
    Errorf "a%.*db" = "a%!(BADPREC)%!d(MISSING)b" ∧
    Errorf "a%-5.2fb" = "a%!f(MISSING)b" := by
  decide

/-- The reader accepts JSON texts and rejects texts that are not JSON. -/
theorem validJSON_samples :
    validJSON " -0.5E-2 " = true ∧
    validJSON "[true,false,null,\x7b\x7d,[]]" = true ∧
    validJSON "\"a\\u00e9\\n\"" = true ∧
    validJSON "" = false ∧
    validJSON "01" = false ∧
    validJSON "tru" = false ∧
    validJSON "[1,2,]" = false ∧
    validJSON "\"a\\qb\"" = false ∧
    validJSON "\x7b\"a\":1,\x7d" = false ∧
    validJSON "\x7b\"a\" 1\x7d" = false ∧
    validJSON "\x7b\"a\":1\x7d x" = false := by
  decide

/-- The reader collects the members of the outermost object only, and
decodes the escapes of keys and string values. -/
theorem jsonObject_samples :
    jsonObject ("\x7b\"a\":1,\"b\":[1,2,\x7b\"c\":\"d\"\x7d, -3.5e+7 ]," ++
        "\"e\":\"x\\ny\\u0041\", \"f\" : null\x7d") =
      some [("a", none), ("b", none), ("e", some "x\nyA"), ("f", none)] ∧
    jsonObject "[1]" = none ∧
    jsonObject "\x7b\x7d" = some [] := by
  decide

set_option maxRecDepth 8000 in
/-- The payload of a task that sets every field, and its members. -/
theorem taskFull_payload :
    taskFull.taskSave.MarshalJSON =
      .ok ("\x7b\"content\":\"buy milk\",\"project_id\":2203306141,\"order\":3," ++
        "\"due_datetime\":\"2026-11-05T12:00:00Z\",\"label_ids\":[7,12],\"priority\":4," ++
        "\"due_string\":\"tomorrow at 12\",\"due_lang\":\"en\"\x7d") ∧
    jsonObject ("\x7b\"content\":\"buy milk\",\"project_id\":2203306141,\"order\":3," ++
        "\"due_datetime\":\"2026-11-05T12:00:00Z\",\"label_ids\":[7,12],\"priority\":4," ++
        "\"due_string\":\"tomorrow at 12\",\"due_lang\":\"en\"\x7d") =
      some [("content", some "buy milk"), ("project_id", none), ("order", none),
        ("due_datetime", some "2026-11-05T12:00:00Z"), ("label_ids", none),
        ("priority", none), ("due_string", some "tomorrow at 12"), ("due_lang", some "en")] := by
  decide

/-- The query string of a mapping with two entries, one of them empty. -/
theorem QueryParam_samples :
    QueryParam.String [("a", "1"), ("", "")] = "?a=1&=" ∧
    QueryParam.String [("filter", "today"), ("lang", "en")] = "?filter=today&lang=en" := by
  decide

/-! ## Empty content is refused before any request exists -/

theorem MarshalJSON_empty (ts : taskSave) (h : ts.Content = "") :
    ts.MarshalJSON = .error "Content is empty" := by
  simp [taskSave.MarshalJSON, h]

theorem makeRequest_marshal_error (env : Env) (method endpoint : String) (ts : taskSave)
    (err : String) (h : jsonMarshal env ts = .error err) :
    makeRequest env method endpoint (some ts) = ([], .error err) := by
  simp [makeRequest, h]

/-- C1: for a Task whose Content is empty, `taskSave.MarshalJSON` returns the
error "Content is empty"; `makeRequest` then returns the marshal error
(the encoder's wrapper around that error) having called neither
`http.NewRequest` nor the HTTP client, whatever the method and endpoint; so
`CreateTask` and `Task.Update` return that error with no request built or
sent. -/
theorem C1_empty_content_no_request (env : Env) (t : Task) (h : t.Content = "") :
    t.taskSave.MarshalJSON = .error "Content is empty" ∧
    (∀ method endpoint : String, makeRequest env method endpoint (some t.taskSave) =
      ([], .error "json: error calling MarshalJSON for type todoist.taskSave: Content is empty")) ∧
    CreateTask env t =
      ([], .error "json: error calling MarshalJSON for type todoist.taskSave: Content is empty") ∧
    Task.Update env t =
      ([], some "json: error calling MarshalJSON for type todoist.taskSave: Content is empty") := by
  have hm : t.taskSave.MarshalJSON = .error "Content is empty" :=
    MarshalJSON_empty _ (by simpa [Task.taskSave] using h)
  have hj : jsonMarshal env t.taskSave =
      .error "json: error calling MarshalJSON for type todoist.taskSave: Content is empty" := by
    simp only [jsonMarshal, hm]
    rfl
  refine ⟨hm, fun method endpoint => makeRequest_marshal_error env method endpoint _ _ hj, ?_, ?_⟩
  · simp only [CreateTask, makeRequest_marshal_error env _ _ _ _ hj]
  · simp only [Task.Update, makeRequest_marshal_error env _ _ _ _ hj]

theorem C1_empty_content_no_request_witness :
    emptyTask.Content = "" ∧
    CreateTask okEnv emptyTask =
      ([], .error "json: error calling MarshalJSON for type todoist.taskSave: Content is empty") :=
  ⟨rfl, (C1_empty_content_no_request okEnv emptyTask rfl).2.2.1⟩

/-! ## The query string -/

theorem question_append_ne (a : String) (h : a ≠ "") : "?" ++ a ≠ "?" := by
  intro he
  apply h
  have hl := congrArg String.length he
  simp only [String.length_append] at hl
  have h0 : a.length = 0 := by
    have h1 : "?".length = 1 := rfl
    omega
  exact String.ext (List.eq_nil_of_length_eq_zero h0)

theorem pair_ne_empty (kv : String × String) : kv.1 ++ "=" ++ kv.2 ≠ "" := by
  intro he
  have hl := congrArg String.length he
  simp only [String.length_append] at hl
  have h1 : "=".length = 1 := rfl
  have h2 : "".length = 0 := rfl
  omega

theorem foldl_step_eq (rest : QueryParam) (a : String) (h : a ≠ "") :
    rest.foldl QueryParam.step ("?" ++ a) =
      "?" ++ String.intercalate.go a "&" (rest.map fun e => e.1 ++ "=" ++ e.2) := by
  induction rest generalizing a with
  | nil => simp [String.intercalate.go]
  | cons kv rest ih =>
    have hne : a ++ "&" ++ (kv.1 ++ "=" ++ kv.2) ≠ "" := by
      intro he
      have hl := congrArg String.length he
      simp only [String.length_append] at hl
      have h1 : "&".length = 1 := rfl
      have h2 : "".length = 0 := rfl
      omega
    have hs : QueryParam.step ("?" ++ a) kv = "?" ++ (a ++ "&" ++ (kv.1 ++ "=" ++ kv.2)) := by
      simp only [QueryParam.step, if_pos (question_append_ne a h), String.append_assoc]
    simp only [List.foldl_cons, hs, ih _ hne, List.map_cons, String.intercalate.go]

theorem length_intercalate_go (l : List String) (a sep : String) :
    (String.intercalate.go a sep l).length =
      a.length + (l.map String.length).sum + sep.length * l.length := by
  induction l generalizing a with
  | nil => simp [String.intercalate.go]
  | cons x xs ih =>
    simp only [String.intercalate.go, ih, String.length_append, List.map_cons, List.sum_cons,
      List.length_cons]
    ring

/-- C5: `QueryParam.String` returns the empty string for the empty mapping;
for a non-empty mapping visited in the order `(k1,v1),...,(kn,vn)` it
returns exactly `?` followed by the n strings `ki=vi` joined by `&`, so the
entry `a -> 1` alone gives `?a=1`; and its length is one (the `?`) plus the
lengths of the n items plus n-1 (one `&` between neighbours), also for
empty keys or values. -/
theorem C5_queryparam_string :
    QueryParam.String [] = "" ∧
    (∀ (kv : String × String) (rest : QueryParam),
      QueryParam.String (kv :: rest) =
        "?" ++ "&".intercalate ((kv :: rest).map fun e => e.1 ++ "=" ++ e.2)) ∧
    QueryParam.String [("a", "1")] = "?a=1" ∧
    (∀ (kv : String × String) (rest : QueryParam),
      (QueryParam.String (kv :: rest)).length =
        1 + (((kv :: rest).map fun e => e.1.length + 1 + e.2.length).sum + rest.length)) := by
  have key : ∀ (kv : String × String) (rest : QueryParam),
      QueryParam.String (kv :: rest) =
        "?" ++ "&".intercalate ((kv :: rest).map fun e => e.1 ++ "=" ++ e.2) := by
    intro kv rest
    have h0 : QueryParam.step "?" kv = "?" ++ (kv.1 ++ "=" ++ kv.2) := by
      simp [QueryParam.step, String.append_assoc]
    simp only [QueryParam.String, List.length_cons, Nat.succ_ne_zero, if_false, List.foldl_cons,
      h0, foldl_step_eq rest _ (pair_ne_empty kv), List.map_cons, String.intercalate]
  refine ⟨rfl, key, by decide, ?_⟩
  intro kv rest
  rw [key]
  simp only [List.map_cons, String.intercalate, String.length_append, length_intercalate_go,
    List.map_map, List.sum_cons, List.length_map]
  have h1 : "?".length = 1 := rfl
  have h2 : "&".length = 1 := rfl
  have h3 : "=".length = 1 := rfl
  have hsum : (List.map (String.length ∘ fun e : String × String => e.1 ++ "=" ++ e.2) rest).sum =
      (List.map (fun e : String × String => e.1.length + 1 + e.2.length) rest).sum := by
    congr 1
    apply List.map_congr_left
    intro e _
    simp [String.length_append, h3]
  rw [hsum, h1, h2, h3]
  ring

/-! ## What the payload depends on -/

/-- C9: the create/update payload depends only on Content, ProjectID, Order,
LabelIDs, Priority, Due.String and Due.Datetime: two Tasks that agree on
these seven fields (and differ arbitrarily in ID, CommentCount, Completed,
Indent, Due.Date and Due.Timezone) have the same derived `taskSave`, the
same result of `MarshalJSON` (bytes or error), and the same result of
`json.Marshal`; so a date held only in Due.Date never reaches the payload. -/
theorem C9_payload_depends_on_seven_fields (t1 t2 : Task)
    (hContent : t1.Content = t2.Content) (hProject : t1.ProjectID = t2.ProjectID)
    (hOrder : t1.Order = t2.Order) (hLabels : t1.LabelIDs = t2.LabelIDs)
    (hPriority : t1.Priority = t2.Priority) (hString : t1.Due.String = t2.Due.String)
    (hDatetime : t1.Due.Datetime = t2.Due.Datetime) :
    t1.taskSave = t2.taskSave ∧
    t1.taskSave.MarshalJSON = t2.taskSave.MarshalJSON ∧
    ∀ env : Env, jsonMarshal env t1.taskSave = jsonMarshal env t2.taskSave := by
  have h : t1.taskSave = t2.taskSave := by
    simp only [Task.taskSave, hContent, hProject, hOrder, hLabels, hPriority, hString, hDatetime]
  exact ⟨h, by rw [h], fun env => by rw [h]⟩

theorem C9_payload_depends_on_seven_fields_witness :
    taskA ≠ taskB ∧ taskA.taskSave.MarshalJSON = taskB.taskSave.MarshalJSON :=
  ⟨by decide, (C9_payload_depends_on_seven_fields taskA taskB rfl rfl rfl rfl rfl rfl rfl).2.1⟩

/-! ## The payload of a task that sets only its content -/

/-- C10: for a Task with non-empty Content `c` and every other payload
field at its zero value, `MarshalJSON` succeeds and returns exactly the
bytes `{"content":"c","due_lang":"en"}` with `c` copied verbatim: the
`due_lang` member is emitted although no due field is set. -/
theorem C10_content_only_payload (t : Task) (hc : t.Content ≠ "")
    (hProject : t.ProjectID = "") (hOrder : t.Order = 0) (hLabels : t.LabelIDs = [])
    (hPriority : t.Priority = 0) (hString : t.Due.String = "")
    (hDatetime : t.Due.Datetime.IsZero = true) :
    t.taskSave.MarshalJSON =
      .ok ("\x7b\"content\":\"" ++ t.Content ++ "\",\"due_lang\":\"en\"\x7d") := by
  simp [taskSave.MarshalJSON, Task.taskSave, hc, hProject, hOrder, hLabels, hPriority, hString,
    hDatetime, String.append_assoc]
  rfl

theorem C10_content_only_payload_witness :
    taskA.Content ≠ "" ∧
    taskA.taskSave.MarshalJSON = .ok "\x7b\"content\":\"buy milk\",\"due_lang\":\"en\"\x7d" :=
  ⟨by decide, C10_content_only_payload taskA (by decide) rfl rfl rfl rfl rfl rfl⟩

/-! ## Classification of the response -/

theorem makeRequest_sent (env : Env) (method endpoint : String) (data : Option taskSave)
    (body : String) (hm : marshalled env data = .ok body)
    (hu : env.parseURL (todoistURL ++ endpoint) = none) :
    makeRequest env method endpoint data =
      ([Event.NewRequest method (todoistURL ++ endpoint) body,
        Event.Do (builtRequest env method endpoint body data.isSome)],
       match env.Do (builtRequest env method endpoint body data.isSome) with
       | .error err => .error err
       | .ok res =>
         if res.StatusCode ≥ 400 then
           match res.Body with
           | .error err => .error err
           | .ok str => .error (Errorf str)
         else .ok res) := by
  have hreq : ∀ req : Request,
      (match env.Do req with
        | .error err => ([Event.NewRequest method (todoistURL ++ endpoint) body, Event.Do req],
            (.error err : Except String Response))
        | .ok res =>
          if res.StatusCode ≥ 400 then
            match res.Body with
            | .error err =>
              ([Event.NewRequest method (todoistURL ++ endpoint) body, Event.Do req], .error err)
            | .ok str =>
              ([Event.NewRequest method (todoistURL ++ endpoint) body, Event.Do req],
                .error (Errorf str))
          else ([Event.NewRequest method (todoistURL ++ endpoint) body, Event.Do req], .ok res)) =
      ([Event.NewRequest method (todoistURL ++ endpoint) body, Event.Do req],
        match env.Do req with
        | .error err => .error err
        | .ok res =>
          if res.StatusCode ≥ 400 then
            match res.Body with
            | .error err => .error err
            | .ok str => .error (Errorf str)
          else .ok res) := by
    intro req
    cases env.Do req with
    | error e => rfl
    | ok res =>
      obtain ⟨code, b⟩ := res
      by_cases hs : code ≥ 400
      · cases b <;> simp [hs]
      · simp [hs]
  cases data with
  | none =>
    simp only [marshalled, Except.ok.injEq] at hm
    subst hm
    simp only [makeRequest, hu, builtRequest, Option.isSome_none, List.nil_append]
    exact hreq _
  | some d =>
    simp only [marshalled] at hm
    simp only [makeRequest, hm, hu, builtRequest, Option.isSome_some, List.nil_append]
    exact hreq _

/-- C8: when the payload marshals (to `body`), the URL parses and the HTTP
client returns a response `res`, `makeRequest` returns `res` (and no error)
if and only if `res.StatusCode < 400`; for every status code `>= 400` it
returns an error and no response, and `GetTask` then returns an error, not
a Task. -/
theorem C8_response_iff_status_below_400 (env : Env) (method endpoint : String)
    (data : Option taskSave) (body : String) (res : Response)
    (hm : marshalled env data = .ok body)
    (hu : env.parseURL (todoistURL ++ endpoint) = none)
    (hd : env.Do (builtRequest env method endpoint body data.isSome) = .ok res) :
    ((makeRequest env method endpoint data).2 = .ok res ↔ res.StatusCode < 400) ∧
    (res.StatusCode ≥ 400 → ∃ err, (makeRequest env method endpoint data).2 = .error err) ∧
    (∀ id : String, method = "GET" → endpoint = "tasks/" ++ id → data = none →
      res.StatusCode ≥ 400 → ∃ err, (GetTask env id).2 = .error err) := by
  have hr := makeRequest_sent env method endpoint data body hm hu
  rw [hd] at hr
  obtain ⟨code, b⟩ := res
  have hge : code ≥ 400 → ∃ err, (makeRequest env method endpoint data).2 = .error err := by
    intro hs
    rw [hr]
    cases b <;> simp [hs]
  refine ⟨?_, hge, ?_⟩
  · rw [hr]
    by_cases hs : code ≥ 400
    · have : ¬ code < 400 := by omega
      cases b <;> simp [hs, this]
    · have : code < 400 := by omega
      simp [hs, this]
  · intro id hmeth hend hdata hs
    subst hmeth hend hdata
    obtain ⟨err, he⟩ := hge hs
    refine ⟨err, ?_⟩
    simp only [GetTask]
    cases hmk : makeRequest env "GET" ("tasks/" ++ id) none with
    | mk evs r =>
      rw [hmk] at he
      simp only at he
      subst he
      rfl

theorem C8_response_iff_status_below_400_witness :
    (∃ err, (GetTask notFoundEnv "7").2 = .error err) ∧
    ¬ (makeRequest notFoundEnv "GET" "tasks/7" none).2 = .ok ⟨404, .ok "Task not found"⟩ := by
  have h := C8_response_iff_status_below_400 notFoundEnv "GET" "tasks/7" none ""
    ⟨404, .ok "Task not found"⟩ rfl rfl rfl
  exact ⟨h.2.2 "7" rfl rfl rfl (by decide), fun hc => absurd (h.1.1 hc) (by decide)⟩

/-! ## Close, Reopen and Delete -/

theorem makeRequest_url_error (env : Env) (method endpoint : String) (err : String)
    (hu : env.parseURL (todoistURL ++ endpoint) = some err) :
    makeRequest env method endpoint none =
      ([Event.NewRequest method (todoistURL ++ endpoint) ""], .error err) := by
  simp only [makeRequest, hu]

theorem makeRequest_none (env : Env) (method endpoint : String)
    (hu : env.parseURL (todoistURL ++ endpoint) = none) :
    (makeRequest env method endpoint none).1 =
      [Event.NewRequest method (todoistURL ++ endpoint) "",
       Event.Do ⟨method, todoistURL ++ endpoint, "", [("Authorization", "Bearer " ++ env.Token)]⟩] ∧
    ((∃ r, (makeRequest env method endpoint none).2 = .ok r) ↔
      ∃ res, env.Do ⟨method, todoistURL ++ endpoint, "",
        [("Authorization", "Bearer " ++ env.Token)]⟩ = .ok res ∧ res.StatusCode < 400) := by
  have hr := makeRequest_sent env method endpoint none "" rfl hu
  have hb : builtRequest env method endpoint "" (none : Option taskSave).isSome =
      ⟨method, todoistURL ++ endpoint, "", [("Authorization", "Bearer " ++ env.Token)]⟩ := by
    simp [builtRequest]
  rw [hb] at hr
  rw [hr]
  refine ⟨rfl, ?_⟩
  cases env.Do ⟨method, todoistURL ++ endpoint, "", [("Authorization", "Bearer " ++ env.Token)]⟩ with
  | error e => simp
  | ok res =>
    obtain ⟨code, b⟩ := res
    by_cases hs : code ≥ 400
    · have : ¬ code < 400 := by omega
      cases b <;> simp [hs, this]
    · have : code < 400 := by omega
      simp [hs, this]

/-- What `Close`, `Reopen` and `Delete` have in common: a `makeRequest`
without payload whose response is dropped. -/
theorem dropped_response (r : List Event × Except String Response) :
    ((match r with
      | (evs, .error err) => (evs, some err)
      | (evs, .ok _) => (evs, none) : List Event × Option String).1 = r.1) ∧
    ((match r with
      | (evs, .error err) => (evs, some err)
      | (evs, .ok _) => (evs, none) : List Event × Option String).2 = none ↔
      ∃ res, r.2 = .ok res) := by
  obtain ⟨evs, x⟩ := r
  cases x <;> simp

/-- C7, as stated, fails: against a server that answers 404, the HTTP
client call of `Close` on task `42` succeeds (it returns the response), the
one request is a POST to `tasks/42/close`, and still `Close` returns a
non-nil error. -/
theorem C7_counterexample_status_404 :
    notFoundEnv.Do ⟨"POST", "https://api.todoist.com/rest/v2/tasks/42/close", "",
        [("Authorization", "Bearer secret")]⟩ = .ok ⟨404, .ok "Task not found"⟩ ∧
    Task.Close notFoundEnv task42 =
      ([Event.NewRequest "POST" "https://api.todoist.com/rest/v2/tasks/42/close" "",
        Event.Do ⟨"POST", "https://api.todoist.com/rest/v2/tasks/42/close", "",
          [("Authorization", "Bearer secret")]⟩],
       some "Task not found") := by
  decide

/-- C7 (amended): for every Task `t`, whenever `http.NewRequest` accepts
the URL, `t.Close` issues exactly one request, a POST to base URL +
`tasks/` + ID + `/close`, `t.Reopen` exactly one POST to base URL +
`tasks/` + ID + `/reopen`, and `t.Delete` exactly one DELETE to base URL +
`tasks/` + ID, each with an empty body and only the Authorization header;
each returns nil exactly when the HTTP client returns a response whose
status code is below 400. When `http.NewRequest` refuses the URL, no
request is issued and its error is returned. -/
theorem C7_close_reopen_delete (env : Env) (t : Task) :
    (env.parseURL (todoistURL ++ ("tasks/" ++ t.ID ++ "/close")) = none →
      (Task.Close env t).1 =
        [Event.NewRequest "POST" (todoistURL ++ ("tasks/" ++ t.ID ++ "/close")) "",
         Event.Do ⟨"POST", todoistURL ++ ("tasks/" ++ t.ID ++ "/close"), "",
           [("Authorization", "Bearer " ++ env.Token)]⟩] ∧
      ((Task.Close env t).2 = none ↔
        ∃ res, env.Do ⟨"POST", todoistURL ++ ("tasks/" ++ t.ID ++ "/close"), "",
          [("Authorization", "Bearer " ++ env.Token)]⟩ = .ok res ∧ res.StatusCode < 400)) ∧
    (env.parseURL (todoistURL ++ ("tasks/" ++ t.ID ++ "/reopen")) = none →
      (Task.Reopen env t).1 =
        [Event.NewRequest "POST" (todoistURL ++ ("tasks/" ++ t.ID ++ "/reopen")) "",
         Event.Do ⟨"POST", todoistURL ++ ("tasks/" ++ t.ID ++ "/reopen"), "",
           [("Authorization", "Bearer " ++ env.Token)]⟩] ∧
      ((Task.Reopen env t).2 = none ↔
        ∃ res, env.Do ⟨"POST", todoistURL ++ ("tasks/" ++ t.ID ++ "/reopen"), "",
          [("Authorization", "Bearer " ++ env.Token)]⟩ = .ok res ∧ res.StatusCode < 400)) ∧
    (env.parseURL (todoistURL ++ ("tasks/" ++ t.ID)) = none →
      (Task.Delete env t).1 =
        [Event.NewRequest "DELETE" (todoistURL ++ ("tasks/" ++ t.ID)) "",
         Event.Do ⟨"DELETE", todoistURL ++ ("tasks/" ++ t.ID), "",
           [("Authorization", "Bearer " ++ env.Token)]⟩] ∧
      ((Task.Delete env t).2 = none ↔
        ∃ res, env.Do ⟨"DELETE", todoistURL ++ ("tasks/" ++ t.ID), "",
          [("Authorization", "Bearer " ++ env.Token)]⟩ = .ok res ∧ res.StatusCode < 400)) ∧
    (∀ err, env.parseURL (todoistURL ++ ("tasks/" ++ t.ID ++ "/close")) = some err →
      Task.Close env t =
        ([Event.NewRequest "POST" (todoistURL ++ ("tasks/" ++ t.ID ++ "/close")) ""], some err)) ∧
    (∀ err, env.parseURL (todoistURL ++ ("tasks/" ++ t.ID ++ "/reopen")) = some err →
      Task.Reopen env t =
        ([Event.NewRequest "POST" (todoistURL ++ ("tasks/" ++ t.ID ++ "/reopen")) ""], some err)) ∧
    (∀ err, env.parseURL (todoistURL ++ ("tasks/" ++ t.ID)) = some err →
      Task.Delete env t =
        ([Event.NewRequest "DELETE" (todoistURL ++ ("tasks/" ++ t.ID)) ""], some err)) := by
  refine ⟨fun hu => ?_, fun hu => ?_, fun hu => ?_, fun err hu => ?_, fun err hu => ?_,
    fun err hu => ?_⟩
  · have h := makeRequest_none env "POST" ("tasks/" ++ t.ID ++ "/close") hu
    have d := dropped_response (makeRequest env "POST" ("tasks/" ++ t.ID ++ "/close") none)
    exact ⟨d.1.trans h.1, d.2.trans h.2⟩
  · have h := makeRequest_none env "POST" ("tasks/" ++ t.ID ++ "/reopen") hu
    have d := dropped_response (makeRequest env "POST" ("tasks/" ++ t.ID ++ "/reopen") none)
    exact ⟨d.1.trans h.1, d.2.trans h.2⟩
  · have h := makeRequest_none env "DELETE" ("tasks/" ++ t.ID) hu
    have d := dropped_response (makeRequest env "DELETE" ("tasks/" ++ t.ID) none)
    exact ⟨d.1.trans h.1, d.2.trans h.2⟩
  · simp only [Task.Close, makeRequest_url_error env _ _ err hu]
  · simp only [Task.Reopen, makeRequest_url_error env _ _ err hu]
  · simp only [Task.Delete, makeRequest_url_error env _ _ err hu]

theorem C7_close_reopen_delete_witness :
    okEnv.parseURL (todoistURL ++ ("tasks/" ++ task42.ID ++ "/close")) = none ∧
    (Task.Close okEnv task42).1 =
      [Event.NewRequest "POST" "https://api.todoist.com/rest/v2/tasks/42/close" "",
       Event.Do ⟨"POST", "https://api.todoist.com/rest/v2/tasks/42/close", "",
         [("Authorization", "Bearer secret")]⟩] ∧
    (Task.Close okEnv task42).2 = none :=
  ⟨rfl, ((C7_close_reopen_delete okEnv task42).1 rfl).1,
    ((C7_close_reopen_delete okEnv task42).1 rfl).2.2 ⟨⟨200, .ok "ok"⟩, rfl, by decide⟩⟩

/-! ## The error built from the response body -/

theorem doPrintf_plain (s : List Char) (fuel : Nat) (hf : s.length ≤ fuel)
    (hs : ∀ c ∈ s, c ≠ '%') : doPrintf fuel s = s := by
  induction s generalizing fuel with
  | nil => cases fuel <;> rfl
  | cons c cs ih =>
    cases fuel with
    | zero => simp at hf
    | succ fuel =>
      have hc : c ≠ '%' := hs c (List.mem_cons_self _ _)
      simp only [doPrintf, hc, ne_eq, not_false_eq_true, if_true]
      rw [ih fuel (by simpa using hf) (fun x hx => hs x (List.mem_cons_of_mem _ hx))]

/-- A body without a percent sign comes back unchanged as the message. -/
theorem Errorf_plain (b : String) (hb : ∀ c ∈ b.data, c ≠ '%') : Errorf b = b := by
  simp only [Errorf, String.length]
  rw [doPrintf_plain b.data _ (le_refl _) hb]

/-- C3 at a failing input: for the response body `quota 100% used` with
status 429, the error of `makeRequest` and of `GetTask` has the message
`quota 100%!u(MISSING)sed`, which does not contain the body text: the body
is passed to `fmt.Errorf` as its format, so `% u` is read as a directive. -/
theorem C3_body_used_as_format :
    (makeRequest quotaEnv "GET" "tasks/7" none).2 = .error "quota 100%!u(MISSING)sed" ∧
    (GetTask quotaEnv "7").2 = .error "quota 100%!u(MISSING)sed" ∧
    ¬ ("quota 100% used".data <:+: "quota 100%!u(MISSING)sed".data) := by
  decide

/-! ## The reader on the texts `MarshalJSON` writes -/

theorem Reader.run_append (r : Reader) (a b : List Char) :
    r.run (a ++ b) = (r.run a).bind fun r' => r'.run b := by
  induction a generalizing r with
  | nil => rfl
  | cons c cs ih =>
    simp only [List.cons_append, Reader.run]
    cases r.step c with
    | none => rfl
    | some r' => exact ih r'

theorem Reader.run_cons (r : Reader) (c : Char) (cs : List Char) :
    r.run (c :: cs) = (r.step c).bind fun r' => r'.run cs := by
  simp only [Reader.run]
  cases r.step c <;> rfl

theorem run_plain (s : List Char) (hs : plainText s = true) (k : Bool) (st : List Ctx)
    (cur : List Char) (key : String) (o : Bool) (ms : List (String × Option String)) :
    Reader.run ⟨.str k, st, cur, key, o, ms⟩ s = some ⟨.str k, st, cur ++ s, key, o, ms⟩ := by
  induction s generalizing cur with
  | nil => simp [Reader.run]
  | cons c cs ih =>
    simp only [plainText, List.all_cons, Bool.and_eq_true, bne_iff_ne, ne_eq,
      decide_eq_true_eq] at hs
    obtain ⟨⟨⟨h1, h2⟩, h3⟩, h4⟩ := hs
    have h5 : ¬ c.toNat < 32 := by omega
    simp only [Reader.run, Reader.step, h1, h2, h5, if_false]
    rw [ih h4]
    simp

theorem digit_cases (c : Char) (h : digit c = true) :
    c ∈ ['0', '1', '2', '3', '4', '5', '6', '7', '8', '9'] := by
  simp only [digit, Bool.and_eq_true, decide_eq_true_eq] at h
  have hc := Char.ofNat_toNat c
  obtain ⟨h1, h2⟩ := h
  generalize c.toNat = n at *
  subst hc
  interval_cases n <;> decide

theorem digit_facts (c : Char) (h : digit c = true) :
    ws c = false ∧ c ≠ '\"' ∧ c ≠ '\x7b' ∧ c ≠ '[' ∧ c ≠ '-' ∧ c ≠ ']' ∧ c ≠ '.' ∧ c ≠ 'e' ∧
      c ≠ 'E' := by
  have hc := digit_cases c h
  simp only [List.mem_cons, List.mem_singleton, List.not_mem_nil, or_false] at hc
  rcases hc with rfl | rfl | rfl | rfl | rfl | rfl | rfl | rfl | rfl | rfl <;> decide

theorem run_digits (cs : List Char) (h : cs.all digit = true) (st : List Ctx) (cur : List Char)
    (key : String) (o : Bool) (ms : List (String × Option String)) :
    Reader.run ⟨.int, st, cur, key, o, ms⟩ cs = some ⟨.int, st, cur, key, o, ms⟩ := by
  induction cs with
  | nil => rfl
  | cons c cs ih =>
    simp only [List.all_cons, Bool.and_eq_true] at h
    simp only [Reader.run, Reader.step, h.1, if_true]
    exact ih h.2

theorem isNumeral_cases (l : List Char) (h : isNumeral l = true) :
    l = ['0'] ∨ ∃ c cs, l = c :: cs ∧ digit c = true ∧ c ≠ '0' ∧ cs.all digit = true := by
  match l, h with
  | [c], h =>
    by_cases h0 : c = '0'
    · left; rw [h0]
    · right; exact ⟨c, [], rfl, h, h0, rfl⟩
  | c :: c2 :: cs, h =>
    simp only [isNumeral, Bool.and_eq_true, bne_iff_ne, ne_eq] at h
    right
    exact ⟨c, c2 :: cs, rfl, h.1.1, h.1.2, h.2⟩

theorem run_numeral_minus (l : List Char) (h : isNumeral l = true) (st : List Ctx)
    (cur : List Char) (key : String) (o : Bool) (ms : List (String × Option String)) :
    ∃ m, (m = Mode.zero ∨ m = Mode.int) ∧
      Reader.run ⟨.minus, st, cur, key, o, ms⟩ l = some ⟨m, st, cur, key, o, ms⟩ := by
  rcases isNumeral_cases l h with rfl | ⟨c, cs, rfl, hd, h0, hcs⟩
  · exact ⟨.zero, Or.inl rfl, rfl⟩
  · refine ⟨.int, Or.inr rfl, ?_⟩
    simp only [Reader.run, Reader.step, h0, hd, if_true, if_false]
    exact run_digits cs hcs st cur key o ms

theorem run_numeral_value (l : List Char) (h : isNumeral l = true) (m0 : Mode)
    (hm0 : m0 = Mode.value ∨ m0 = Mode.valueOrEnd) (st : List Ctx)
    (cur : List Char) (key : String) (o : Bool) (ms : List (String × Option String)) :
    ∃ m, (m = Mode.zero ∨ m = Mode.int) ∧
      Reader.run ⟨m0, st, cur, key, o, ms⟩ l =
        some { (⟨m0, st, cur, key, o, ms⟩ : Reader).noteValue with mode := m } := by
  rcases isNumeral_cases l h with rfl | ⟨c, cs, rfl, hd, h0, hcs⟩
  · refine ⟨.zero, Or.inl rfl, ?_⟩
    rcases hm0 with rfl | rfl <;> rfl
  · refine ⟨.int, Or.inr rfl, ?_⟩
    obtain ⟨f1, f2, f3, f4, f5, f6, -, -, -⟩ := digit_facts c hd
    have hstep : Reader.step ⟨m0, st, cur, key, o, ms⟩ c =
        some { (⟨m0, st, cur, key, o, ms⟩ : Reader).noteValue with mode := .int } := by
      rcases hm0 with rfl | rfl <;>
        simp [Reader.step, Reader.beginValue, f1, f2, f3, f4, f5, f6, h0, hd]
    simp only [Reader.run, hstep]
    exact run_digits cs hcs _ _ _ _ _

theorem run_int_value (l : List Char) (h : isIntText l = true) (m0 : Mode)
    (hm0 : m0 = Mode.value ∨ m0 = Mode.valueOrEnd) (st : List Ctx)
    (cur : List Char) (key : String) (o : Bool) (ms : List (String × Option String)) :
    ∃ m, (m = Mode.zero ∨ m = Mode.int) ∧
      Reader.run ⟨m0, st, cur, key, o, ms⟩ l =
        some { (⟨m0, st, cur, key, o, ms⟩ : Reader).noteValue with mode := m } := by
  by_cases hneg : ∃ t, l = '-' :: t
  · obtain ⟨t, rfl⟩ := hneg
    have ht : isNumeral t = true := by simpa [isIntText] using h
    obtain ⟨m, hm, hr⟩ := run_numeral_minus t ht
      (⟨m0, st, cur, key, o, ms⟩ : Reader).noteValue.stack
      (⟨m0, st, cur, key, o, ms⟩ : Reader).noteValue.cur
      (⟨m0, st, cur, key, o, ms⟩ : Reader).noteValue.key
      (⟨m0, st, cur, key, o, ms⟩ : Reader).noteValue.isObject
      (⟨m0, st, cur, key, o, ms⟩ : Reader).noteValue.members
    refine ⟨m, hm, ?_⟩
    have hstep : Reader.step ⟨m0, st, cur, key, o, ms⟩ '-' =
        some { (⟨m0, st, cur, key, o, ms⟩ : Reader).noteValue with mode := .minus } := by
      rcases hm0 with rfl | rfl <;> rfl
    simp only [Reader.run, hstep]
    exact hr
  · have ht : isNumeral l = true := by
      match l, h, hneg with
      | [], h, _ => exact h
      | c :: cs, h, hneg =>
        have hc : c ≠ '-' := fun hc => hneg ⟨cs, by rw [hc]⟩
        unfold isIntText at h
        split at h
        · rename_i heq
          exact absurd (List.cons.inj heq).1 hc
        · exact h
    exact run_numeral_value l ht m0 hm0 st cur key o ms

theorem digit_ofNat (d : Nat) (h : d < 10) : digit (Char.ofNat (48 + d)) = true := by
  interval_cases d <;> rfl

theorem ofNat_ne_zero (d : Nat) (h : d < 10) (h0 : d ≠ 0) : Char.ofNat (48 + d) ≠ '0' := by
  interval_cases d <;> first | exact absurd rfl h0 | decide

theorem natDigits_spec (fuel n : Nat) (h : n ≤ fuel) :
    (natDigits fuel n).all digit = true ∧
    (n = 0 → natDigits fuel n = ['0']) ∧
    (n ≠ 0 → ∃ c cs, natDigits fuel n = c :: cs ∧ c ≠ '0') := by
  induction fuel generalizing n with
  | zero =>
    have hn : n = 0 := by omega
    subst hn
    exact ⟨rfl, fun _ => rfl, fun h0 => absurd rfl h0⟩
  | succ fuel ih =>
    by_cases hlt : n < 10
    · simp only [natDigits, hlt, if_true]
      refine ⟨by simp [digit_ofNat n hlt], fun h0 => by subst h0; rfl, fun h0 => ?_⟩
      exact ⟨_, [], rfl, ofNat_ne_zero n hlt h0⟩
    · simp only [natDigits, hlt, if_false]
      have hq : n / 10 ≤ fuel := by omega
      have hq0 : n / 10 ≠ 0 := by omega
      obtain ⟨h1, -, h3⟩ := ih (n / 10) hq
      obtain ⟨c, cs, hc, hc0⟩ := h3 hq0
      refine ⟨?_, fun h0 => by omega, fun _ => ?_⟩
      · simp [h1, digit_ofNat (n % 10) (Nat.mod_lt _ (by decide))]
      · exact ⟨c, cs ++ [Char.ofNat (48 + n % 10)], by rw [hc]; rfl, hc0⟩

theorem isNumeral_natDigits (n : Nat) : isNumeral (natDigits n n) = true := by
  obtain ⟨h1, h2, h3⟩ := natDigits_spec n n (le_refl n)
  by_cases h0 : n = 0
  · rw [h2 h0]; rfl
  · obtain ⟨c, cs, hc, hc0⟩ := h3 h0
    rw [hc] at h1 ⊢
    simp only [List.all_cons, Bool.and_eq_true] at h1
    cases cs with
    | nil => exact h1.1
    | cons c2 cs => simp [isNumeral, h1.1, hc0, h1.2]

theorem isIntText_of_isNumeral (l : List Char) (h : isNumeral l = true) :
    isIntText l = true := by
  unfold isIntText
  split
  · rename_i cs
    rcases isNumeral_cases _ h with h1 | ⟨c, cs2, h1, hd, -, -⟩
    · exact absurd (List.cons.inj h1).1 (by decide)
    · have : c = '-' := (List.cons.inj h1).1.symm
      rw [this] at hd
      exact absurd hd (by decide)
  · exact h

theorem isIntText_formatInt (i : Int) : isIntText (formatInt i).data = true := by
  cases i with
  | ofNat n => exact isIntText_of_isNumeral _ (isNumeral_natDigits n)
  | negSucc n =>
    have : (formatInt (Int.negSucc n)).data = '-' :: natDigits (n + 1) (n + 1) := rfl
    rw [this]
    exact isNumeral_natDigits (n + 1)

theorem intercalate_go_data (l : List String) (a sep : String) :
    (String.intercalate.go a sep l).data =
      a.data ++ (l.map fun x => sep.data ++ x.data).flatten := by
  induction l generalizing a with
  | nil => simp [String.intercalate.go]
  | cons x xs ih =>
    simp only [String.intercalate.go, ih, String.data_append, List.map_cons, List.flatten_cons,
      List.append_assoc]

theorem Reads_string (s : List Char) (hs : plainText s = true) :
    Reads ('\"' :: s ++ ['\"']) (some (String.mk s)) := by
  intro key o ms
  refine ⟨.after, Or.inl rfl, ?_⟩
  have h1 : Reader.step ⟨.value, [Ctx.object], [], key, o, ms⟩ '\"' =
      some ⟨.str false, [Ctx.object], [], key, o, ms⟩ := rfl
  rw [List.cons_append, Reader.run_cons, h1, Option.some_bind, Reader.run_append, run_plain s hs]
  simp [Reader.run, Reader.step, Reader.closeString]

theorem Reads_int (l : List Char) (h : isIntText l = true) : Reads l none := by
  intro key o ms
  obtain ⟨m, hm, hr⟩ := run_int_value l h .value (Or.inl rfl) [Ctx.object] [] key o ms
  refine ⟨m, Or.inr hm, ?_⟩
  rw [hr]
  simp [Reader.noteValue]

theorem run_elems (xs : List (List Char)) (hx : ∀ x ∈ xs, isIntText x = true) (m : Mode)
    (hm : m = Mode.zero ∨ m = Mode.int) (st : List Ctx) (cur : List Char) (key : String)
    (o : Bool) (ms : List (String × Option String)) :
    ∃ m2, (m2 = Mode.zero ∨ m2 = Mode.int) ∧
      Reader.run ⟨m, Ctx.array :: st, cur, key, o, ms⟩ (xs.map fun x => ',' :: x).flatten =
        some ⟨m2, Ctx.array :: st, cur, key, o, ms⟩ := by
  induction xs generalizing m with
  | nil => exact ⟨m, hm, rfl⟩
  | cons x xs ih =>
    have hstep : Reader.step ⟨m, Ctx.array :: st, cur, key, o, ms⟩ ',' =
        some ⟨.value, Ctx.array :: st, cur, key, o, ms⟩ := by
      rcases hm with rfl | rfl <;> rfl
    obtain ⟨m1, hm1, hr1⟩ := run_int_value x (hx x (List.mem_cons_self _ _)) .value (Or.inl rfl)
      (Ctx.array :: st) cur key o ms
    have hn : (⟨.value, Ctx.array :: st, cur, key, o, ms⟩ : Reader).noteValue =
        ⟨.value, Ctx.array :: st, cur, key, o, ms⟩ := by
      simp [Reader.noteValue]
    rw [hn] at hr1
    obtain ⟨m2, hm2, hr2⟩ := ih (fun y hy => hx y (List.mem_cons_of_mem _ hy)) m1 hm1
    refine ⟨m2, hm2, ?_⟩
    rw [List.map_cons, List.flatten_cons, List.cons_append, Reader.run_cons, hstep,
      Option.some_bind, Reader.run_append, hr1]
    exact hr2

theorem Reads_array (xs : List Int) :
    Reads ("[" ++ ",".intercalate (xs.map formatInt) ++ "]").data none := by
  intro key o ms
  refine ⟨.after, Or.inl rfl, ?_⟩
  have h1 : Reader.step ⟨.value, [Ctx.object], [], key, o, ms⟩ '[' =
      some ⟨.valueOrEnd, [Ctx.array, Ctx.object], [], "", o, ms ++ [(key, none)]⟩ := rfl
  have hd : ("[" ++ ",".intercalate (xs.map formatInt) ++ "]").data =
      '[' :: ((",".intercalate (xs.map formatInt)).data ++ [']']) := by
    simp only [String.data_append]
    rfl
  rw [hd, Reader.run_cons, h1, Option.some_bind]
  cases xs with
  | nil => rfl
  | cons x xs =>
    have hb : (",".intercalate ((x :: xs).map formatInt)).data =
        (formatInt x).data ++ ((xs.map fun y => (formatInt y).data).map fun y => ',' :: y).flatten := by
      simp only [List.map_cons, String.intercalate, intercalate_go_data, List.map_map]
      rfl
    rw [hb, List.append_assoc, Reader.run_append]
    obtain ⟨m1, hm1, hr1⟩ := run_int_value (formatInt x).data (isIntText_formatInt x) .valueOrEnd
      (Or.inr rfl) [Ctx.array, Ctx.object] [] "" o (ms ++ [(key, none)])
    have hn : (⟨.valueOrEnd, [Ctx.array, Ctx.object], [], "", o, ms ++ [(key, none)]⟩ :
        Reader).noteValue = ⟨.valueOrEnd, [Ctx.array, Ctx.object], [], "", o, ms ++ [(key, none)]⟩ := by
      simp [Reader.noteValue]
    rw [hn] at hr1
    rw [hr1, Option.some_bind, Reader.run_append]
    obtain ⟨m2, hm2, hr2⟩ := run_elems (xs.map fun y => (formatInt y).data)
      (by
        intro y hy
        obtain ⟨z, -, rfl⟩ := List.mem_map.1 hy
        exact isIntText_formatInt z)
      m1 hm1 [Ctx.object] [] "" o (ms ++ [(key, none)])
    rw [hr2]
    rcases hm2 with rfl | rfl <;> rfl

theorem run_key (k : List Char) (hk : plainText k = true) (m : Mode)
    (hm : m = Mode.key ∨ m = Mode.keyOrEnd) (key : String) (o : Bool)
    (ms : List (String × Option String)) :
    Reader.run ⟨m, [Ctx.object], [], key, o, ms⟩ ('\"' :: k ++ ['\"', ':']) =
      some ⟨.value, [Ctx.object], [], String.mk k, o, ms⟩ := by
  have h1 : Reader.step ⟨m, [Ctx.object], [], key, o, ms⟩ '\"' =
      some ⟨.str true, [Ctx.object], [], key, o, ms⟩ := by
    rcases hm with rfl | rfl <;> rfl
  rw [List.cons_append, Reader.run_cons, h1, Option.some_bind, Reader.run_append, run_plain k hk]
  simp [Reader.run, Reader.step, Reader.closeString, ws]

theorem run_member (k v : List Char) (val : Option String) (hk : plainText k = true)
    (hv : Reads v val) (m : Mode) (hm : m = Mode.after ∨ m = Mode.zero ∨ m = Mode.int)
    (o : Bool) (ms : List (String × Option String)) :
    ∃ m2, (m2 = Mode.after ∨ m2 = Mode.zero ∨ m2 = Mode.int) ∧
      Reader.run ⟨m, [Ctx.object], [], "", o, ms⟩ (memberText k v) =
        some ⟨m2, [Ctx.object], [], "", o, ms ++ [(String.mk k, val)]⟩ := by
  have h1 : Reader.step ⟨m, [Ctx.object], [], "", o, ms⟩ ',' =
      some ⟨.key, [Ctx.object], [], "", o, ms⟩ := by
    rcases hm with rfl | rfl | rfl <;> rfl
  obtain ⟨m2, hm2, hr2⟩ := hv (String.mk k) o ms
  refine ⟨m2, hm2, ?_⟩
  have ht : memberText k v = ',' :: (('\"' :: k ++ ['\"', ':']) ++ v) := by
    simp [memberText]
  rw [ht, Reader.run_cons, h1, Option.some_bind, Reader.run_append,
    run_key k hk .key (Or.inl rfl)]
  exact hr2

theorem run_members (rest : List (List Char × List Char × Option String))
    (hr : ∀ e ∈ rest, plainText e.1 = true ∧ Reads e.2.1 e.2.2) (m : Mode)
    (hm : m = Mode.after ∨ m = Mode.zero ∨ m = Mode.int)
    (o : Bool) (ms : List (String × Option String)) :
    ∃ m2, (m2 = Mode.after ∨ m2 = Mode.zero ∨ m2 = Mode.int) ∧
      Reader.run ⟨m, [Ctx.object], [], "", o, ms⟩ (rest.map fun e => memberText e.1 e.2.1).flatten =
        some ⟨m2, [Ctx.object], [], "", o, ms ++ rest.map fun e => (String.mk e.1, e.2.2)⟩ := by
  induction rest generalizing m ms with
  | nil => exact ⟨m, hm, by simp [Reader.run]⟩
  | cons e rest ih =>
    obtain ⟨hk, hv⟩ := hr e (List.mem_cons_self _ _)
    obtain ⟨m1, hm1, hr1⟩ := run_member e.1 e.2.1 e.2.2 hk hv m hm o ms
    obtain ⟨m2, hm2, hr2⟩ := ih (fun x hx => hr x (List.mem_cons_of_mem _ hx)) m1 hm1
      (ms ++ [(String.mk e.1, e.2.2)])
    refine ⟨m2, hm2, ?_⟩
    simp only [List.map_cons, List.flatten_cons]
    rw [Reader.run_append, hr1]
    simp only [Option.bind, hr2, List.append_assoc, List.singleton_append]

/-- A text of the shape `{"k0":v0,"k1":v1,...}` whose keys are plain and
whose values are read as `val0, val1, ...` is a JSON object with exactly
these members. -/
theorem jsonObject_of_members (k0 v0 : List Char) (val0 : Option String)
    (rest : List (List Char × List Char × Option String))
    (hk0 : plainText k0 = true) (hv0 : Reads v0 val0)
    (hr : ∀ e ∈ rest, plainText e.1 = true ∧ Reads e.2.1 e.2.2) :
    jsonObject (String.mk ('\x7b' :: ('\"' :: k0 ++ ['\"', ':']) ++ v0 ++
        (rest.map fun e => memberText e.1 e.2.1).flatten ++ ['\x7d'])) =
      some ((String.mk k0, val0) :: rest.map fun e => (String.mk e.1, e.2.2)) := by
  have h1 : Reader.step Reader.init '\x7b' =
      some ⟨.keyOrEnd, [Ctx.object], [], "", true, []⟩ := rfl
  obtain ⟨m1, hm1, hr1⟩ := hv0 (String.mk k0) true []
  obtain ⟨m2, hm2, hr2⟩ := run_members rest hr m1 hm1 true ([] ++ [(String.mk k0, val0)])
  have hrun : Reader.init.run ('\x7b' :: ('\"' :: k0 ++ ['\"', ':']) ++ v0 ++
        (rest.map fun e => memberText e.1 e.2.1).flatten ++ ['\x7d']) =
      some ⟨.after, [], [], "", true,
        (String.mk k0, val0) :: rest.map fun e => (String.mk e.1, e.2.2)⟩ := by
    have hshape : '\x7b' :: ('\"' :: k0 ++ ['\"', ':']) ++ v0 ++
        (rest.map fun e => memberText e.1 e.2.1).flatten ++ ['\x7d'] =
        '\x7b' :: (('\"' :: k0 ++ ['\"', ':']) ++ (v0 ++
          ((rest.map fun e => memberText e.1 e.2.1).flatten ++ ['\x7d']))) := by
      simp
    rw [hshape, Reader.run_cons, h1, Option.some_bind, Reader.run_append,
      run_key k0 hk0 .keyOrEnd (Or.inr rfl), Option.some_bind, Reader.run_append, hr1,
      Option.some_bind, Reader.run_append, hr2]
    rcases hm2 with rfl | rfl | rfl <;> rfl
  simp only [jsonObject, hrun]
  rfl

/-! ## The shape of the bytes `MarshalJSON` returns -/

/-- The buffer of `MarshalJSON` as one concatenation: every conditional
write adds its text or nothing. -/
theorem MarshalJSON_concat (ts : taskSave) (hc : ts.Content ≠ "") (j : String)
    (hj : ts.DueDateTime.IsZero = true ∨ jsonMarshalTime ts.DueDateTime = .ok j) :
    ts.MarshalJSON = .ok ("\x7b" ++ ("\"content\":\"" ++ ts.Content ++ "\"") ++
      (if ts.ProjectID ≠ "" then ",\"project_id\":" ++ ts.ProjectID else "") ++
      (if ts.Order ≠ 0 then ",\"order\":" ++ formatInt ts.Order else "") ++
      (if ts.DueDateTime.IsZero = false then ",\"due_datetime\":" ++ j else "") ++
      (if ts.LabelIDs.length ≠ 0 then
        ",\"label_ids\":" ++ ("[" ++ ",".intercalate (ts.LabelIDs.map formatInt) ++ "]") else "") ++
      (if ts.Priority ≠ 0 then ",\"priority\":" ++ formatInt ts.Priority else "") ++
      (if ts.DueString ≠ "" then ",\"due_string\":\"" ++ ts.DueString ++ "\"" else "") ++
      (if ts.DueLang ≠ "" then ",\"due_lang\":\"" ++ ts.DueLang ++ "\"" else "") ++ "\x7d") := by
  have hite : ∀ (c : Prop) [Decidable c] (b x : String),
      (if c then b ++ x else b) = b ++ (if c then x else "") := by
    intro c _ b x
    split <;> simp
  have hite2 : ∀ (c : Prop) [Decidable c] (b l x : String),
      (if c then (Except.ok (b ++ l ++ x) : Except String String) else Except.ok b) =
        Except.ok (b ++ (if c then l ++ x else "")) := by
    intro c _ b l x
    split <;> simp [String.append_assoc]
  unfold taskSave.MarshalJSON
  simp only [hc, if_false, jsonMarshalInts, hite, hite2]
  cases hz : ts.DueDateTime.IsZero
  · have hjok : jsonMarshalTime ts.DueDateTime = .ok j := by
      rcases hj with h | h
      · rw [hz] at h; exact absurd h (by decide)
      · exact h
    simp only [Bool.not_false, if_true, hjok, String.append_assoc]
  · simp only [Bool.not_true, Bool.false_eq_true, if_false, Bool.true_eq_false,
      String.append_empty]

theorem MarshalJSON_written (ts : taskSave) (hc : ts.Content ≠ "") (j : String)
    (tv : Option String)
    (hj : ts.DueDateTime.IsZero = true ∨ jsonMarshalTime ts.DueDateTime = .ok j) :
    ts.MarshalJSON = .ok (String.mk ('\x7b' :: ('\"' :: "content".data ++ ['\"', ':']) ++
      ('\"' :: ts.Content.data ++ ['\"']) ++
      ((written ts j tv).map fun e => memberText e.1 e.2.1).flatten ++ ['\x7d'])) := by
  have hdata : ∀ (c : Prop) [Decidable c] (x : String),
      (if c then x else "").data = if c then x.data else [] := by
    intro c _ x
    split <;> rfl
  have hfl : ∀ (c : Prop) [Decidable c] (e : List Char × List Char × Option String)
      (l : List (List Char × List Char × Option String)),
      (((if c then [e] else []) ++ l).map fun e => memberText e.1 e.2.1).flatten =
        (if c then memberText e.1 e.2.1 else []) ++
          (l.map fun e => memberText e.1 e.2.1).flatten := by
    intro c _ e l
    split <;> simp
  have hfl1 : ∀ (c : Prop) [Decidable c] (e : List Char × List Char × Option String),
      ((if c then [e] else []).map fun e => memberText e.1 e.2.1).flatten =
        (if c then memberText e.1 e.2.1 else []) := by
    intro c _ e
    split <;> simp
  rw [MarshalJSON_concat ts hc j hj]
  apply congrArg
  apply String.ext
  simp only [hdata, String.data_append, written, hfl, hfl1, List.append_assoc, List.cons_append]
  rfl

theorem MarshalJSON_time_error (ts : taskSave) (hc : ts.Content ≠ "") (err : String)
    (hz : ts.DueDateTime.IsZero = false) (hj : jsonMarshalTime ts.DueDateTime = .error err) :
    ts.MarshalJSON = .error err := by
  unfold taskSave.MarshalJSON
  simp only [hc, if_false, hz, Bool.not_false, if_true, hj]

theorem mem_opt {α : Type} (c : Prop) [Decidable c] (x e : α)
    (h : e ∈ (if c then [x] else [])) : c ∧ e = x := by
  split at h
  · rename_i hc
    exact ⟨hc, List.mem_singleton.1 h⟩
  · exact absurd h (List.not_mem_nil _)

theorem written_keys (ts : taskSave) (j : String) (tv : Option String) :
    (written ts j tv).map (fun e => String.mk e.1) =
      (if ts.ProjectID ≠ "" then ["project_id"] else []) ++
      ((if ts.Order ≠ 0 then ["order"] else []) ++
      ((if ts.DueDateTime.IsZero = false then ["due_datetime"] else []) ++
      ((if ts.LabelIDs.length ≠ 0 then ["label_ids"] else []) ++
      ((if ts.Priority ≠ 0 then ["priority"] else []) ++
      ((if ts.DueString ≠ "" then ["due_string"] else []) ++
      (if ts.DueLang ≠ "" then ["due_lang"] else [])))))) := by
  have hm : ∀ (c : Prop) [Decidable c] (e : List Char × List Char × Option String),
      (if c then [e] else []).map (fun e => String.mk e.1) =
        if c then [String.mk e.1] else [] := by
    intro c _ e
    split <;> rfl
  simp only [written, List.map_append, hm]

/-- For a task whose texts are plain, the bytes `MarshalJSON` returns are
a JSON object whose members are `content`, read back as the task's
Content, followed by the members written for the fields that are set. -/
theorem payload_members (t : Task) (hc : t.Content ≠ "") (hp : t.plain) :
    ∃ (j : String) (tv : Option String) (out : String),
      t.taskSave.MarshalJSON = .ok out ∧
      jsonObject out = some (("content", some t.Content) ::
        (written t.taskSave j tv).map fun e => (String.mk e.1, e.2.2)) := by
  obtain ⟨hpc, hps, hpp, hpt⟩ := hp
  have hts : t.taskSave.Content ≠ "" := hc
  have key : ∀ (j : String) (tv : Option String),
      (t.taskSave.DueDateTime.IsZero = true ∨ jsonMarshalTime t.taskSave.DueDateTime = .ok j) →
      (t.taskSave.DueDateTime.IsZero = false → Reads j.data tv) →
      ∃ (j : String) (tv : Option String) (out : String),
        t.taskSave.MarshalJSON = .ok out ∧
        jsonObject out = some (("content", some t.Content) ::
          (written t.taskSave j tv).map fun e => (String.mk e.1, e.2.2)) := by
    intro j tv hj hread
    refine ⟨j, tv, _, MarshalJSON_written t.taskSave hts j tv hj, ?_⟩
    have h := jsonObject_of_members "content".data ('\"' :: t.Content.data ++ ['\"'])
      (some (String.mk t.Content.data)) (written t.taskSave j tv) (by decide)
      (Reads_string _ hpc) ?_
    · exact h
    · intro e he
      simp only [written, List.mem_append] at he
      rcases he with he | he | he | he | he | he | he
      · obtain ⟨hne, rfl⟩ := mem_opt _ _ _ he
        refine ⟨rfl, Reads_int _ (isIntText_of_isNumeral _ ?_)⟩
        rcases hpp with h0 | h1
        · exact absurd h0 hne
        · exact h1
      · obtain ⟨-, rfl⟩ := mem_opt _ _ _ he
        exact ⟨rfl, Reads_int _ (isIntText_formatInt _)⟩
      · obtain ⟨hz, rfl⟩ := mem_opt _ _ _ he
        exact ⟨rfl, hread hz⟩
      · obtain ⟨-, rfl⟩ := mem_opt _ _ _ he
        exact ⟨rfl, Reads_array _⟩
      · obtain ⟨-, rfl⟩ := mem_opt _ _ _ he
        exact ⟨rfl, Reads_int _ (isIntText_formatInt _)⟩
      · obtain ⟨-, rfl⟩ := mem_opt _ _ _ he
        exact ⟨rfl, Reads_string _ hps⟩
      · obtain ⟨-, rfl⟩ := mem_opt _ _ _ he
        exact ⟨rfl, Reads_string _ rfl⟩
  rcases hpt with hz | ⟨s, hs, hj⟩
  · exact key "" none (Or.inl hz) (fun h => by
      have hz2 : t.taskSave.DueDateTime.IsZero = true := hz
      rw [hz2] at h
      exact absurd h (by decide))
  · exact key ("\"" ++ s ++ "\"") (some s) (Or.inr hj) (fun _ => Reads_string s.data hs)

/-! ## Which keys the payload has -/

/-- C2, as stated, fails: the task `taskFar` has non-empty Content, yet
serializing its derived payload does not succeed: `MarshalJSON` returns the
error of encoding the timestamp. -/
theorem C2_counterexample_timestamp :
    taskFar.Content ≠ "" ∧ taskFar.Due.Datetime.IsZero = false ∧
    taskFar.taskSave.MarshalJSON =
      .error ("json: error calling MarshalJSON for type time.Time: " ++
        "Time.MarshalJSON: year outside of range [0,9999]") := by
  decide

/-- C2 (amended): for every Task with non-empty Content, `MarshalJSON`
succeeds when Due.Datetime is the zero time or `json.Marshal` encodes it,
and returns the encoder's error otherwise. When moreover the task's texts
are plain (`Task.plain`), the result is a JSON object that has the key
`content`, and for each field at its zero value (ProjectID empty, Order 0,
LabelIDs empty, Priority 0, Due.String empty, Due.Datetime zero) the key
`project_id`, `order`, `label_ids`, `priority`, `due_string`,
`due_datetime` is not a key of that object. -/
theorem C2_zero_fields_omitted (t : Task) (hc : t.Content ≠ "") :
    ((t.Due.Datetime.IsZero = true ∨ ∃ j, jsonMarshalTime t.Due.Datetime = .ok j) →
      ∃ out, t.taskSave.MarshalJSON = .ok out) ∧
    (∀ err, t.Due.Datetime.IsZero = false → jsonMarshalTime t.Due.Datetime = .error err →
      t.taskSave.MarshalJSON = .error err) ∧
    (t.plain → ∃ out ms, t.taskSave.MarshalJSON = .ok out ∧ jsonObject out = some ms ∧
      "content" ∈ ms.map Prod.fst ∧
      (t.ProjectID = "" → "project_id" ∉ ms.map Prod.fst) ∧
      (t.Order = 0 → "order" ∉ ms.map Prod.fst) ∧
      (t.LabelIDs = [] → "label_ids" ∉ ms.map Prod.fst) ∧
      (t.Priority = 0 → "priority" ∉ ms.map Prod.fst) ∧
      (t.Due.String = "" → "due_string" ∉ ms.map Prod.fst) ∧
      (t.Due.Datetime.IsZero = true → "due_datetime" ∉ ms.map Prod.fst)) := by
  have hts : t.taskSave.Content ≠ "" := hc
  refine ⟨?_, ?_, ?_⟩
  · rintro (hz | ⟨j, hj⟩)
    · exact ⟨_, MarshalJSON_concat t.taskSave hts "" (Or.inl hz)⟩
    · exact ⟨_, MarshalJSON_concat t.taskSave hts j (Or.inr hj)⟩
  · intro err hz hj
    exact MarshalJSON_time_error t.taskSave hts err hz hj
  · intro hp
    obtain ⟨j, tv, out, hout, hobj⟩ := payload_members t hc hp
    refine ⟨out, _, hout, hobj, ?_⟩
    have hk : (("content", some t.Content) ::
        (written t.taskSave j tv).map fun e => (String.mk e.1, e.2.2)).map Prod.fst =
        "content" :: (written t.taskSave j tv).map (fun e => String.mk e.1) := by
      simp [List.map_map, Function.comp_def]
    rw [hk, written_keys]
    have e1 : t.taskSave.ProjectID = t.ProjectID := rfl
    have e2 : t.taskSave.Order = t.Order := rfl
    have e3 : t.taskSave.LabelIDs = t.LabelIDs := rfl
    have e4 : t.taskSave.Priority = t.Priority := rfl
    have e5 : t.taskSave.DueString = t.Due.String := rfl
    have e6 : t.taskSave.DueDateTime = t.Due.Datetime := rfl
    have e7 : t.taskSave.DueLang = "en" := rfl
    rw [e1, e2, e3, e4, e5, e6, e7]
    refine ⟨List.mem_cons_self _ _, ?_, ?_, ?_, ?_, ?_, ?_⟩
    · intro h
      simp [h]
    · intro h
      simp [h]
    · intro h
      simp [h]
    · intro h
      simp [h]
    · intro h
      simp [h]
    · intro h
      simp [h]

theorem C2_zero_fields_omitted_witness :
    taskDue.Content ≠ "" ∧ taskDue.plain ∧
    ∃ out ms, taskDue.taskSave.MarshalJSON = .ok out ∧ jsonObject out = some ms ∧
      "content" ∈ ms.map Prod.fst ∧ "priority" ∉ ms.map Prod.fst := by
  have hp : taskDue.plain := ⟨by decide, by decide, Or.inl rfl, Or.inl rfl⟩
  obtain ⟨out, ms, h1, h2, h3, -, -, -, h7, -, -⟩ :=
    (C2_zero_fields_omitted taskDue (by decide)).2.2 hp
  exact ⟨by decide, hp, out, ms, h1, h2, h3, h7 rfl⟩

/-! ## The language member -/

/-- C6: for every Task with non-empty Content in which a due field is set
(Due.String non-empty or Due.Datetime not zero), every payload
`MarshalJSON` returns ends with the member `"due_lang":"en"` before the
closing brace; a payload is returned whenever the timestamp is zero or
`json.Marshal` encodes it (otherwise the encoder's error is returned and
there is no payload); and when the task's texts are plain the payload is a
JSON object with the member `due_lang` whose value is the string `en`. -/
theorem C6_due_lang_en (t : Task) (hc : t.Content ≠ "")
    (_hdue : t.Due.String ≠ "" ∨ t.Due.Datetime.IsZero = false) :
    (∀ out, t.taskSave.MarshalJSON = .ok out →
      ∃ pre : String, out = pre ++ ",\"due_lang\":\"en\"\x7d") ∧
    ((t.Due.Datetime.IsZero = true ∨ ∃ j, jsonMarshalTime t.Due.Datetime = .ok j) →
      ∃ out, t.taskSave.MarshalJSON = .ok out) ∧
    (∀ err, t.Due.Datetime.IsZero = false → jsonMarshalTime t.Due.Datetime = .error err →
      t.taskSave.MarshalJSON = .error err) ∧
    (t.plain → ∃ out ms, t.taskSave.MarshalJSON = .ok out ∧ jsonObject out = some ms ∧
      ("due_lang", some "en") ∈ ms) := by
  have hts : t.taskSave.Content ≠ "" := hc
  have hsome : (t.Due.Datetime.IsZero = true ∨ ∃ j, jsonMarshalTime t.Due.Datetime = .ok j) →
      ∃ pre : String, t.taskSave.MarshalJSON = .ok (pre ++ ",\"due_lang\":\"en\"\x7d") := by
    intro h
    have hj : ∃ j, t.taskSave.DueDateTime.IsZero = true ∨
        jsonMarshalTime t.taskSave.DueDateTime = .ok j := by
      rcases h with hz | ⟨j, hj⟩
      · exact ⟨"", Or.inl hz⟩
      · exact ⟨j, Or.inr hj⟩
    obtain ⟨j, hj⟩ := hj
    rw [MarshalJSON_concat t.taskSave hts j hj]
    have hl : t.taskSave.DueLang = "en" := rfl
    have hlit : (",\"due_lang\":\"" ++ "en" ++ "\"" : String) ++ "\x7d" =
        ",\"due_lang\":\"en\"\x7d" := by decide
    have hne : ("en" : String) ≠ "" := by decide
    simp only [hl, hne, ne_eq, not_false_eq_true, if_true]
    rw [String.append_assoc _ (",\"due_lang\":\"" ++ "en" ++ "\"") "\x7d", hlit]
    exact ⟨_, rfl⟩
  refine ⟨?_, fun h => ?_, fun err hz hj => MarshalJSON_time_error t.taskSave hts err hz hj, ?_⟩
  · intro out hout
    cases hz : t.Due.Datetime.IsZero
    · cases hj : jsonMarshalTime t.Due.Datetime with
      | error err =>
        rw [MarshalJSON_time_error t.taskSave hts err hz hj] at hout
        exact absurd hout (by simp)
      | ok j =>
        obtain ⟨pre, hpre⟩ := hsome (Or.inr ⟨j, hj⟩)
        rw [hpre] at hout
        exact ⟨pre, (Except.ok.inj hout).symm⟩
    · obtain ⟨pre, hpre⟩ := hsome (Or.inl hz)
      rw [hpre] at hout
      exact ⟨pre, (Except.ok.inj hout).symm⟩
  · obtain ⟨pre, hpre⟩ := hsome h
    exact ⟨_, hpre⟩
  · intro hp
    obtain ⟨j, tv, out, hout, hobj⟩ := payload_members t hc hp
    refine ⟨out, _, hout, hobj, ?_⟩
    have hl : t.taskSave.DueLang = "en" := rfl
    simp [written, hl]

theorem C6_due_lang_en_witness :
    taskDue.Content ≠ "" ∧ taskDue.Due.String ≠ "" ∧
    taskDue.taskSave.MarshalJSON =
      .ok "\x7b\"content\":\"buy milk\",\"due_string\":\"tomorrow\",\"due_lang\":\"en\"\x7d" ∧
    ∃ pre : String,
      "\x7b\"content\":\"buy milk\",\"due_string\":\"tomorrow\",\"due_lang\":\"en\"\x7d" =
        pre ++ ",\"due_lang\":\"en\"\x7d" :=
  ⟨by decide, by decide, by decide,
    (C6_due_lang_en taskDue (by decide) (Or.inl (by decide))).1 _ (by decide)⟩

/-! ## The bytes are not always JSON -/

/-- C4 at failing inputs. Content is copied between the quotes without
escaping and ProjectID is written without quotes, so:
* for the content `say "hi"` the bytes returned are not JSON;
* for the content `see C:\new` they are JSON, but the member `content`
  decodes to `see C:` + line feed + `ew`, not to the Content;
* for a content that closes the string itself the object gains the member
  `priority` although Priority is 0, and `content` decodes to `x`;
* for the project `2203306141` the member `project_id` is a JSON number,
  not a string that decodes to ProjectID. -/
theorem C4_payload_not_escaped :
    (taskQuote.taskSave.MarshalJSON =
        .ok "\x7b\"content\":\"say \"hi\"\",\"due_lang\":\"en\"\x7d" ∧
      validJSON "\x7b\"content\":\"say \"hi\"\",\"due_lang\":\"en\"\x7d" = false) ∧
    (taskBackslash.taskSave.MarshalJSON =
        .ok "\x7b\"content\":\"see C:\\new\",\"due_lang\":\"en\"\x7d" ∧
      jsonObject "\x7b\"content\":\"see C:\\new\",\"due_lang\":\"en\"\x7d" =
        some [("content", some "see C:\new"), ("due_lang", some "en")] ∧
      taskBackslash.Content ≠ "see C:\new") ∧
    (taskInject.Priority = 0 ∧
      taskInject.taskSave.MarshalJSON =
        .ok "\x7b\"content\":\"x\",\"priority\":4,\"y\":\"\",\"due_lang\":\"en\"\x7d" ∧
      jsonObject "\x7b\"content\":\"x\",\"priority\":4,\"y\":\"\",\"due_lang\":\"en\"\x7d" =
        some [("content", some "x"), ("priority", none), ("y", some ""),
          ("due_lang", some "en")]) ∧
    (taskProject.taskSave.MarshalJSON =
        .ok "\x7b\"content\":\"buy milk\",\"project_id\":2203306141,\"due_lang\":\"en\"\x7d" ∧
      jsonObject "\x7b\"content\":\"buy milk\",\"project_id\":2203306141,\"due_lang\":\"en\"\x7d" =
        some [("content", some "buy milk"), ("project_id", none), ("due_lang", some "en")]) := by
  decide

end Todoist
